import Mathlib

/-!
# A shallow embedding of the vamp front-end and evaluator

This file embeds the core of the vamp language implementation:

* the symbol interner (`vamp_sym`),
* the hybrid positional/named tuple container (`vamp_tuple`),
* the lexer with automatic comma insertion (`vamp_syntax/lexer.rs`),
* the Pratt parser (`vamp_syntax/parser.rs`), and
* the tree-walking evaluator (`vamp_eval`),

and proves properties of the embedded definitions.

Modelling conventions:

* Source text is a list of byte values (`List Nat`); the Rust lexer operates
  on `as_bytes()` with `unwrap_or(0)` past the end, which is mirrored by
  `List.getD _ 0`.
* Rust loops that are not structurally decreasing take an explicit fuel
  argument; running out of fuel is a distinguished outcome that also stands
  for genuine divergence of the source program (the only loop of the lexer
  that can diverge is the comment loop at end of input).
* Rust panics (`unwrap`, `todo!`, arithmetic guards of `/` and `%`) are a
  distinguished `panic` outcome.
* `i64` arithmetic is `Int` arithmetic reduced into `[-2^63, 2^63)` where the
  release build wraps, and a `panic` outcome where Rust panics in every
  profile (division/remainder by zero and `MIN / -1`, `MIN % -1`).
* `f64` values are carried opaquely as a wrapped `Nat` tag; no claim below
  depends on floating-point semantics, which are out of scope.
* `Rc<RefCell<Scope>>` handles are indices into an explicit store
  (`List Scope`); allocation appends, mutation updates in place.
-/

namespace Vamp

/-- Interned symbol handle (`vamp_sym::Sym`, a `u32` index into the table). -/
abbrev Sym := Nat

/-- The symbol interner: the vector of interned strings (as byte lists).
`intern` returns the existing index or appends. -/
abbrev Interner := List (List Nat)

/-- `Interner::intern`: idempotent; handles are assigned monotonically. -/
def Interner.intern (it : Interner) (s : List Nat) : Sym × Interner :=
  match it.indexOf? s with
  | some i => (i, it)
  | none => (it.length, it ++ [s])

/-- A byte span `[start, stop)` into the source (`vamp_syntax::span::Span`;
the `end` field is called `stop` because `end` is reserved in Lean). -/
structure Span where
  start : Nat
  stop : Nat
deriving DecidableEq, Repr

/-- Indexing a byte-list source by a span (`impl Index<Span> for str`). -/
def sliceOf (src : List Nat) (sp : Span) : List Nat :=
  (src.drop sp.start).take (sp.stop - sp.start)

/-- One positional or named tuple entry (`vamp_tuple::TupleEntry`). -/
inductive TupleEntry (α : Type) where
  | pos (value : α)
  | named (key : Sym) (value : α)
deriving DecidableEq, Repr

/-- The hybrid tuple container (`vamp_tuple::Tuple`): `data` holds the
positional values first, then the named values in the order of the sorted
`keys` array. -/
structure Tuple (α : Type) where
  keys : List Sym
  data : List α
deriving DecidableEq, Repr

namespace Tuple

def new {α : Type} : Tuple α := ⟨[], []⟩

def len {α : Type} (t : Tuple α) : Nat := t.data.length

def keysLen {α : Type} (t : Tuple α) : Nat := t.keys.length

/-- `Tuple::named_offset`: number of positional entries. -/
def namedOffset {α : Type} (t : Tuple α) : Nat := t.data.length - t.keys.length

/-- Index of the first element of a sorted list that is `≥ key`; on a sorted
key array this is the index computed by `Vec::binary_search` (the `Ok` index
when the key is present, the `Err` insertion point otherwise). -/
def lowerBound : List Sym → Sym → Nat
  | [], _ => 0
  | k :: ks, key => if key ≤ k then 0 else lowerBound ks key + 1

/-- `Tuple::key_position`: data index of a named entry. -/
def keyPosition {α : Type} (t : Tuple α) (key : Sym) : Option Nat :=
  let i := lowerBound t.keys key
  if t.keys.get? i = some key then some (t.namedOffset + i) else none

/-- `TupleIndex<T> for usize`: positional access indexes the whole `data`
vector (`tuple.data.get(self)`). -/
def getPos {α : Type} (t : Tuple α) (i : Nat) : Option α := t.data.get? i

/-- `TupleIndex<T> for Sym`: named access through `key_position`. -/
def getKey {α : Type} (t : Tuple α) (key : Sym) : Option α :=
  match t.keyPosition key with
  | some i => t.data.get? i
  | none => none

/-- `Tuple::push`: insert a positional value at the end of the positional
region (`data.insert(named_offset, value)`). -/
def push {α : Type} (t : Tuple α) (value : α) : Tuple α :=
  ⟨t.keys, t.data.take t.namedOffset ++ value :: t.data.drop t.namedOffset⟩

/-- `Tuple::insert`: replace the value of an existing key in place, or insert
the key at its sorted position together with the value. -/
def insert {α : Type} (t : Tuple α) (key : Sym) (value : α) : Tuple α :=
  let offset := t.namedOffset
  let i := lowerBound t.keys key
  if t.keys.get? i = some key then
    ⟨t.keys, t.data.set (offset + i) value⟩
  else
    ⟨t.keys.take i ++ key :: t.keys.drop i,
      t.data.take (offset + i) ++ value :: t.data.drop (offset + i)⟩

/-- `Tuple::iter`: positional entries in order, then named entries keyed by
the sorted key array. -/
def entries {α : Type} (t : Tuple α) : List (TupleEntry α) :=
  (t.data.take t.namedOffset).map .pos ++
    ((t.keys.zip (t.data.drop t.namedOffset)).map fun kv => .named kv.1 kv.2)

/-- `FromIterator<TupleEntry<T>> for Tuple<T>`. -/
def fromEntries {α : Type} (es : List (TupleEntry α)) : Tuple α :=
  es.foldl
    (fun t e =>
      match e with
      | .pos v => t.push v
      | .named k v => t.insert k v)
    new

end Tuple

/-- View an ASCII string literal as its list of byte values. -/
def strBytes (s : String) : List Nat := s.data.map Char.toNat

/-- Token kinds (`vamp_syntax::lexer::TokenKind`); Rust keyword names get a
`K` suffix because they are reserved in Lean. -/
inductive TokenKind where
  | lParen | rParen | lBracket | rBracket | lBrace | rBrace | comma | colon
  | period
  | plus | minus | star | starStar | slash | percent | eq | eqEq | notEq
  | lt | ltLt | ltEq | gt | gtGt | gtEq | not | and | andAnd | or | orOr
  | caret | tilde
  | useK | letK | ifK | elseK | forK
  | ident | ctxIdent
  | sym | str | int | float | trueK | falseK
deriving DecidableEq, Repr

/-- A token: kind plus source span (`vamp_syntax::lexer::Token`). -/
structure Token where
  kind : TokenKind
  span : Span
deriving DecidableEq, Repr

/-- Syntax error kinds (`vamp_syntax::error::ErrorKind`). -/
inductive ErrorKind where
  | delimiters
  | invalidChar
  | invalidToken
  | intInvalid
  | floatInvalid
  | stringUnterminated
  | stringEscSeqInvalid
  | noUnboundExprAtModuleLevel
deriving DecidableEq, Repr

/-- A syntax error with kind, optional detail, and span
(`vamp_syntax::error::Error`). -/
structure SynError where
  kind : ErrorKind
  detail : Option (List Nat)
  span : Span
deriving DecidableEq, Repr

/-- Lexer state (`vamp_syntax::lexer::Tokens`). -/
structure LexSt where
  source : List Nat
  span : Span
  lastTokenKind : Option TokenKind
  autoInsertComma : Bool
deriving DecidableEq, Repr

/-- The statement-closing token kinds tested by `Tokens::bump`. -/
def isCloser : Option TokenKind → Bool
  | some .rParen | some .rBracket | some .rBrace | some .ident | some .sym
  | some .int | some .float | some .str => true
  | _ => false

/-- `Tokens::first`: the byte at the cursor, 0 past the end. -/
def LexSt.first (st : LexSt) : Nat := st.source.getD st.span.stop 0

/-- `Tokens::second`: the byte after the cursor, 0 past the end. -/
def LexSt.second (st : LexSt) : Nat := st.source.getD (st.span.stop + 1) 0

/-- `Tokens::bump`: on a newline, set the pending-comma flag according to the
last emitted token kind, then advance the cursor by one byte. -/
def bump (st : LexSt) : LexSt :=
  { st with
    autoInsertComma :=
      if st.first = 10 then isCloser st.lastTokenKind else st.autoInsertComma,
    span := ⟨st.span.start, st.span.stop + 1⟩ }

/-- `Tokens::bump_if`. -/
def bumpIf (f : Nat → Bool) (st : LexSt) : Bool × LexSt :=
  if f st.first then (true, bump st) else (false, st)

/-- Fueled worker for `Tokens::bump_while`. -/
def bumpWhileAux (f : Nat → Bool) : Nat → LexSt → LexSt
  | 0, st => st
  | fuel + 1, st => if f st.first then bumpWhileAux f fuel (bump st) else st

/-- `Tokens::bump_while`, for the character-class predicates that reject the
byte 0 (so the loop stops at end of input and the fuel below never runs
out). -/
def bumpWhile (f : Nat → Bool) (st : LexSt) : LexSt :=
  bumpWhileAux f (st.source.length + 1) st

/-- Fueled worker for the comment loop `bump_while(|c| c != b'\n')`, whose
predicate accepts the byte 0: at end of input the Rust loop never stops, so
running out of fuel (`none`) models that divergence. -/
def skipCommentAux : Nat → LexSt → Option LexSt
  | 0, _ => none
  | fuel + 1, st =>
    if st.first ≠ 10 then skipCommentAux fuel (bump st) else some st

/-- Skip a comment body up to (not including) the next newline. -/
def skipComment (st : LexSt) : Option LexSt :=
  skipCommentAux (st.source.length + 1) st

/-- Rust `u8::is_ascii_whitespace`: space, tab, LF, FF, CR. -/
def isWhitespaceByte (c : Nat) : Bool :=
  c = 32 || c = 9 || c = 10 || c = 12 || c = 13

/-- Fueled worker for `Tokens::whitespace`. -/
def whitespaceAux : Nat → LexSt → Option LexSt
  | 0, _ => none
  | fuel + 1, st =>
    let st1 := bumpWhile isWhitespaceByte st
    let p := bumpIf (fun c => c == 35) st1
    if p.1 then
      match skipComment p.2 with
      | some st2 => whitespaceAux fuel st2
      | none => none
    else some p.2

/-- `Tokens::whitespace`: skip whitespace and `#`-comments; `none` models
the divergence of the comment loop at end of input. -/
def whitespace (st : LexSt) : Option LexSt :=
  whitespaceAux (st.source.length + 2) st

/-- Outcome of one scanner function of the lexer: `decline` is Rust's
`None`, `tok` is `Some(Ok(_))`, `fail` is `Some(Err(_))`, and `div` models
running out of fuel. -/
inductive ScanOut where
  | div
  | decline (st : LexSt)
  | tok (t : Token) (st : LexSt)
  | fail (e : SynError) (st : LexSt)
deriving DecidableEq, Repr

/-- `Tokens::ok`: emit a token over the current span and record its kind. -/
def emitTok (kind : TokenKind) (st : LexSt) : ScanOut :=
  .tok ⟨kind, st.span⟩ { st with lastTokenKind := some kind }

/-- `Tokens::err`: emit an error over the current span. -/
def emitFail (kind : ErrorKind) (detail : Option (List Nat)) (st : LexSt) :
    ScanOut :=
  .fail ⟨kind, detail, st.span⟩ st

/-- `Tokens::punctuation`: single- and multi-character operators by maximal
munch. -/
def punctuation (st0 : LexSt) : ScanOut :=
  let p := bumpIf (fun c => c == 40) st0
  if p.1 then emitTok .lParen p.2 else
  let p := bumpIf (fun c => c == 41) st0
  if p.1 then emitTok .rParen p.2 else
  let p := bumpIf (fun c => c == 91) st0
  if p.1 then emitTok .lBracket p.2 else
  let p := bumpIf (fun c => c == 93) st0
  if p.1 then emitTok .rBracket p.2 else
  let p := bumpIf (fun c => c == 123) st0
  if p.1 then emitTok .lBrace p.2 else
  let p := bumpIf (fun c => c == 125) st0
  if p.1 then emitTok .rBrace p.2 else
  let p := bumpIf (fun c => c == 44) st0
  if p.1 then emitTok .comma p.2 else
  let p := bumpIf (fun c => c == 58) st0
  if p.1 then emitTok .colon p.2 else
  let p := bumpIf (fun c => c == 46) st0
  if p.1 then emitTok .period p.2 else
  let p := bumpIf (fun c => c == 43) st0
  if p.1 then emitTok .plus p.2 else
  let p := bumpIf (fun c => c == 45) st0
  if p.1 then emitTok .minus p.2 else
  let p := bumpIf (fun c => c == 42) st0
  if p.1 then
    let q := bumpIf (fun c => c == 42) p.2
    if q.1 then emitTok .starStar q.2 else emitTok .star q.2
  else
  let p := bumpIf (fun c => c == 47) st0
  if p.1 then emitTok .slash p.2 else
  let p := bumpIf (fun c => c == 37) st0
  if p.1 then emitTok .percent p.2 else
  let p := bumpIf (fun c => c == 61) st0
  if p.1 then
    let q := bumpIf (fun c => c == 61) p.2
    if q.1 then emitTok .eqEq q.2 else emitTok .eq q.2
  else
  let p := bumpIf (fun c => c == 33) st0
  if p.1 then
    let q := bumpIf (fun c => c == 61) p.2
    if q.1 then emitTok .notEq q.2 else emitTok .not q.2
  else
  let p := bumpIf (fun c => c == 62) st0
  if p.1 then
    let q := bumpIf (fun c => c == 62) p.2
    if q.1 then emitTok .gtGt q.2 else
    let q := bumpIf (fun c => c == 61) p.2
    if q.1 then emitTok .gtEq q.2 else emitTok .gt q.2
  else
  let p := bumpIf (fun c => c == 60) st0
  if p.1 then
    let q := bumpIf (fun c => c == 60) p.2
    if q.1 then emitTok .ltLt q.2 else
    let q := bumpIf (fun c => c == 61) p.2
    if q.1 then emitTok .ltEq q.2 else emitTok .lt q.2
  else
  let p := bumpIf (fun c => c == 38) st0
  if p.1 then
    let q := bumpIf (fun c => c == 38) p.2
    if q.1 then emitTok .andAnd q.2 else emitTok .and q.2
  else
  let p := bumpIf (fun c => c == 124) st0
  if p.1 then
    let q := bumpIf (fun c => c == 124) p.2
    if q.1 then emitTok .orOr q.2 else emitTok .or q.2
  else
  let p := bumpIf (fun c => c == 94) st0
  if p.1 then emitTok .caret p.2 else
  let p := bumpIf (fun c => c == 126) st0
  if p.1 then emitTok .tilde p.2 else
  .decline st0

/-- `[A-Za-z_]`. -/
def isIdentStart (c : Nat) : Bool :=
  (65 ≤ c && c ≤ 90) || (97 ≤ c && c ≤ 122) || c = 95

/-- `[A-Za-z0-9_]`. -/
def isIdentCont (c : Nat) : Bool :=
  isIdentStart c || (48 ≤ c && c ≤ 57)

/-- Map an identifier lexeme to its keyword kind (`Tokens::ident`'s match on
the slice). -/
def keywordOf (s : List Nat) : TokenKind :=
  if s = strBytes "use" then .useK
  else if s = strBytes "let" then .letK
  else if s = strBytes "if" then .ifK
  else if s = strBytes "else" then .elseK
  else if s = strBytes "for" then .forK
  else if s = strBytes "true" then .trueK
  else if s = strBytes "false" then .falseK
  else .ident

/-- `Tokens::ident`. -/
def identScan (st0 : LexSt) : ScanOut :=
  let p := bumpIf isIdentStart st0
  if p.1 then
    let st := bumpWhile isIdentCont p.2
    emitTok (keywordOf (sliceOf st.source st.span)) st
  else .decline st0

/-- `Tokens::ctx_ident`: `@` followed by any identifier-continuation bytes. -/
def ctxIdentScan (st0 : LexSt) : ScanOut :=
  let p := bumpIf (fun c => c == 64) st0
  if p.1 then emitTok .ctxIdent (bumpWhile isIdentCont p.2)
  else .decline st0

/-- Fueled body of the string/symbol loop in `Tokens::symbol_or_string`;
every iteration advances the cursor, so the caller's fuel suffices. -/
def stringLoopAux (delim : Nat) (kind : TokenKind) :
    Nat → LexSt → ScanOut
  | 0, _ => .div
  | fuel + 1, st =>
    if st.first = 0 then emitFail .stringUnterminated none st
    else
      let p := bumpIf (fun c => c == 92) st
      if p.1 then
        let q := bumpIf (fun c => c != 0) p.2
        if q.1 then stringLoopAux delim kind fuel q.2
        else emitFail .stringUnterminated none q.2
      else
        let p := bumpIf (fun c => c == delim) st
        if p.1 then emitTok kind p.2
        else stringLoopAux delim kind fuel (bump st)

/-- `Tokens::symbol_or_string`. -/
def symbolOrString (st0 : LexSt) : ScanOut :=
  if st0.first = 39 || st0.first = 34 then
    let delim := st0.first
    let kind : TokenKind := if delim = 39 then .sym else .str
    stringLoopAux delim kind (st0.source.length + 2) (bump st0)
  else .decline st0

def isDigit (c : Nat) : Bool := 48 ≤ c && c ≤ 57

def isBinDigit (c : Nat) : Bool := c = 48 || c = 49

def isOctDigit (c : Nat) : Bool := 48 ≤ c && c ≤ 55

def isHexDigit (c : Nat) : Bool :=
  (48 ≤ c && c ≤ 57) || (65 ≤ c && c ≤ 70) || (97 ≤ c && c ≤ 102)

/-- `Tokens::int_or_float`. -/
def intOrFloat (st0 : LexSt) : ScanOut :=
  if st0.first = 48 && st0.second = 98 then
    emitTok .int (bumpWhile isBinDigit (bump (bump st0)))
  else if st0.first = 48 && st0.second = 111 then
    emitTok .int (bumpWhile isOctDigit (bump (bump st0)))
  else if st0.first = 48 && st0.second = 120 then
    emitTok .int (bumpWhile isHexDigit (bump (bump st0)))
  else
    let p := bumpIf isDigit st0
    if p.1 then
      let st := bumpWhile isDigit p.2
      let pd := bumpIf (fun c => c == 46) st
      if pd.1 then
        let st1 := bumpWhile isDigit pd.2
        let pe := bumpIf (fun c => c == 101) st1
        if pe.1 then
          let pm := bumpIf (fun c => c == 45) pe.2
          emitTok .float (bumpWhile isDigit pm.2)
        else emitTok .float pe.2
      else
        let pe := bumpIf (fun c => c == 101) st
        if pe.1 then
          let pm := bumpIf (fun c => c == 45) pe.2
          emitTok .float (bumpWhile isDigit pm.2)
        else emitTok .int pe.2
    else .decline st0

/-- `Tokens::error`: any remaining byte is an `InvalidChar`. -/
def errorScan (st0 : LexSt) : ScanOut :=
  let p := bumpIf (fun c => c != 0) st0
  if p.1 then emitFail .invalidChar none p.2
  else .decline st0

/-- The outcome of `<Tokens as Iterator>::next`: `eof` is Rust's `None`. -/
inductive NextOut where
  | div
  | eof (st : LexSt)
  | tok (t : Token) (st : LexSt)
  | fail (e : SynError) (st : LexSt)
deriving DecidableEq, Repr

/-- Convert the last scanner's outcome: a final decline means end of
iteration. -/
def ScanOut.toNext : ScanOut → NextOut
  | .div => .div
  | .decline st => .eof st
  | .tok t st => .tok t st
  | .fail e st => .fail e st

/-- `<Tokens as Iterator>::next`: skip whitespace, reset the span start,
emit the pending synthetic comma if the flag is set, otherwise try each
scanner in order. -/
def nextToken (st0 : LexSt) : NextOut :=
  match whitespace st0 with
  | none => .div
  | some st1 =>
    let st2 : LexSt := { st1 with span := ⟨st1.span.stop, st1.span.stop⟩ }
    if st2.autoInsertComma then
      .tok ⟨.comma, st2.span⟩
        { st2 with lastTokenKind := some .comma, autoInsertComma := false }
    else
      match punctuation st2 with
      | .decline st3 =>
        match identScan st3 with
        | .decline st4 =>
          match ctxIdentScan st4 with
          | .decline st5 =>
            match symbolOrString st5 with
            | .decline st6 =>
              match intOrFloat st6 with
              | .decline st7 => (errorScan st7).toNext
              | out => out.toNext
            | out => out.toNext
          | out => out.toNext
        | out => out.toNext
      | out => out.toNext

/-- Fueled driver of `tokenize`'s `for` loop. -/
def tokenizeAux : Nat → LexSt → List Token →
    Option (Except SynError (List Token))
  | 0, _, _ => none
  | fuel + 1, st, acc =>
    match nextToken st with
    | .div => none
    | .eof _ => some (.ok acc.reverse)
    | .tok t st' => tokenizeAux fuel st' (t :: acc)
    | .fail e _ => some (.error e)

/-- `vamp_syntax::lexer::tokenize`: collect the token stream; `none` models
divergence (a terminating run never exhausts the fuel, because every call to
`next` that is not the last either consumes a byte or clears the pending
comma flag). -/
def tokenize (src : List Nat) : Option (Except SynError (List Token)) :=
  tokenizeAux (2 * src.length + 4) ⟨src, ⟨0, 0⟩, none, false⟩ []

/-- Type slot of an expression (`vamp_ty::Ty`). The parser only ever
produces `Ty::Unknown` (`Expr::unknown`), and the evaluator ignores the
slot; the spec places the type checker out of scope, so the other variants
are not modelled. -/
inductive Ty where
  | unknown
deriving DecidableEq, Repr

/-- Opaque stand-in for `f64`. No claim below depends on floating-point
semantics (out of scope), so float payloads are carried as an opaque tag
and float arithmetic is not interpreted. -/
structure F64 where
  tag : Nat
deriving DecidableEq, Repr

/-- Unary operators (`vamp_syntax::ast::UnOp`). -/
inductive UnOp where
  | neg | not | bitNot
deriving DecidableEq, Repr

/-- Binary operators (`vamp_syntax::ast::BinOp`). -/
inductive BinOp where
  | dot
  | add | sub | mul | div | mod | exp
  | eq | notEq | lt | ltEq | gt | gtEq | and | or
  | bitAnd | bitOr | xor | shiftL | shiftR
deriving DecidableEq, Repr

/-- Patterns (`vamp_syntax::ast::Pat`). -/
inductive Pat where
  | tuple (t : Tuple Pat)
  | list (items : List Pat)
  | ident (s : Sym)
  | ctxIdent (s : Sym)
  | sym (s : Sym)
  | str (s : List Nat)
  | int (v : Int)
  | float (v : F64)
  | bool (b : Bool)
  | wild

mutual

/-- Expression kinds (`vamp_syntax::ast::ExprKind`). -/
inductive ExprKind where
  | void
  | block (stmts : List Stmt)
  | tuple (t : Tuple Expr)
  | list (items : List Expr)
  | call (f : Expr) (args : Tuple Expr)
  | fn (params : Tuple Pat) (body : Expr)
  | ident (s : Sym)
  | ctxIdent (s : Sym)
  | sym (s : Sym)
  | str (s : List Nat)
  | int (v : Int)
  | float (v : F64)
  | bool (b : Bool)
  | unOp (op : UnOp) (e : Expr)
  | binOp (op : BinOp) (l r : Expr)
  | ifElse (cond thenE elseE : Expr)

/-- An expression: type slot plus kind (`vamp_syntax::ast::Expr`). -/
inductive Expr where
  | mk (ty : Ty) (kind : ExprKind)

/-- Statements (`vamp_syntax::ast::Stmt`); `Let` is `letS` because `let` is
reserved in Lean. -/
inductive Stmt where
  | letS (pat : Pat) (e : Expr)
  | expr (e : Expr)

end

def Expr.ty : Expr → Ty
  | .mk t _ => t

def Expr.kind : Expr → ExprKind
  | .mk _ k => k

/-- `Expr::unknown`. -/
def Expr.unknown (k : ExprKind) : Expr := .mk .unknown k

/-- A module path (`vamp_syntax::ast::ModPath`); the `local` field is
`isLocal` because `local` is reserved in Lean. -/
structure ModPath where
  isLocal : Bool
  segments : List Sym
deriving DecidableEq, Repr

/-- A module dependency (`vamp_syntax::ast::Dep`). -/
structure Dep where
  path : ModPath
  bindings : List (Sym × Sym)
deriving DecidableEq, Repr

/-- A module AST (`vamp_syntax::ast::Mod`; named `ModAst` to avoid clashing
with the `Mod` runtime record of `vamp_eval::value`). -/
structure ModAst where
  deps : List Dep
  defs : List Stmt

/-- Parser state (`vamp_syntax::parser::Parser`): source, token vector,
cursor, and the mutably borrowed interner. -/
structure Parser where
  source : List Nat
  tokens : List Token
  index : Nat
  interner : Interner

/-- Outcome of a parser function: `ok` is Rust's `Ok` carrying the mutated
parser, `err` is `Err`, `panic` models a Rust panic (`todo!()` in
`for_loop`, the `unwrap` in `unescape`), and `div` models running out of
fuel. -/
inductive POut (α : Type) where
  | div
  | panic
  | err (e : SynError)
  | ok (a : α) (st : Parser)

/-- Propagate `err`/`panic`/`div` like Rust's `?`. -/
def bindP {α β : Type} (m : POut α) (f : α → Parser → POut β) : POut β :=
  match m with
  | .ok a p => f a p
  | .err e => .err e
  | .panic => .panic
  | .div => .div

/-- `Parser::accept`. -/
def accept (kind : TokenKind) (p : Parser) : Option Span × Parser :=
  match p.tokens.get? p.index with
  | some t =>
    if t.kind = kind then (some t.span, { p with index := p.index + 1 })
    else (none, p)
  | none => (none, p)

/-- `Parser::accept_slice`. -/
def acceptSlice (kind : TokenKind) (p : Parser) : Option (List Nat) × Parser :=
  match accept kind p with
  | (some sp, p1) => (some (sliceOf p1.source sp), p1)
  | (none, p1) => (none, p1)

/-- `Parser::accept_sym`: accept a token and intern its lexeme. -/
def acceptSym (kind : TokenKind) (p : Parser) : Option Sym × Parser :=
  match acceptSlice kind p with
  | (some s, p1) =>
    let r := p1.interner.intern s
    (some r.1, { p1 with interner := r.2 })
  | (none, p1) => (none, p1)

/-- `Parser::accept_un_op`: unary operators with right binding power. -/
def acceptUnOp (p : Parser) : Option (UnOp × Nat) × Parser :=
  match p.tokens.get? p.index with
  | some t =>
    match t.kind with
    | .minus => (some (.neg, 20), { p with index := p.index + 1 })
    | .not => (some (.not, 20), { p with index := p.index + 1 })
    | .tilde => (some (.bitNot, 20), { p with index := p.index + 1 })
    | _ => (none, p)
  | none => (none, p)

/-- The binding-power table of `Parser::accept_bin_op`:
operator, left binding power, right binding power. -/
def binOpBp : TokenKind → Option (BinOp × Nat × Nat)
  | .orOr => some (.or, 0, 1)
  | .andAnd => some (.and, 2, 3)
  | .eqEq => some (.eq, 4, 5)
  | .notEq => some (.notEq, 4, 5)
  | .lt => some (.lt, 4, 5)
  | .ltEq => some (.ltEq, 4, 5)
  | .gt => some (.gt, 4, 5)
  | .gtEq => some (.gtEq, 4, 5)
  | .or => some (.bitOr, 6, 7)
  | .caret => some (.xor, 8, 9)
  | .and => some (.bitAnd, 10, 11)
  | .ltLt => some (.shiftL, 12, 13)
  | .gtGt => some (.shiftR, 12, 13)
  | .plus => some (.add, 14, 15)
  | .minus => some (.sub, 14, 15)
  | .star => some (.mul, 16, 17)
  | .slash => some (.div, 16, 17)
  | .percent => some (.mod, 16, 17)
  | .starStar => some (.exp, 18, 19)
  | .period => some (.dot, 20, 21)
  | _ => none

/-- `Parser::accept_bin_op`. -/
def acceptBinOp (p : Parser) : Option (BinOp × Nat × Nat) × Parser :=
  match p.tokens.get? p.index with
  | some t =>
    match binOpBp t.kind with
    | some r => (some r, { p with index := p.index + 1 })
    | none => (none, p)
  | none => (none, p)

/-- `Parser::invalid_token`: an `InvalidToken` error at the current token,
or at the previous token at end of input. (Rust indexes
`tokens[index - 1]` there, which cannot be out of bounds because every
caller has already accepted at least one token.) -/
def invalidToken (p : Parser) : SynError :=
  ⟨.invalidToken, none,
    match p.tokens.get? p.index with
    | some t => t.span
    | none => (p.tokens.getD (p.index - 1) ⟨.ident, ⟨0, 0⟩⟩).span⟩

/-- Hex digit value for `unescape`'s `\xHH` arm. -/
def hexVal (c : Nat) : Option Nat :=
  if 48 ≤ c && c ≤ 57 then some (c - 48)
  else if 97 ≤ c && c ≤ 102 then some (10 + (c - 97))
  else if 65 ≤ c && c ≤ 70 then some (10 + (c - 65))
  else none

/-- Outcome of `Parser::unescape` (no parser state is mutated there). -/
inductive UOut where
  | panic
  | err (e : SynError)
  | ok (s : List Nat)
deriving DecidableEq, Repr

/-- Single-byte escape table of `Parser::unescape`. -/
def escByte (c : Nat) : Option Nat :=
  if c = 92 then some 92
  else if c = 34 then some 34
  else if c = 39 then some 39
  else if c = 97 then some 7
  else if c = 98 then some 8
  else if c = 116 then some 9
  else if c = 118 then some 11
  else if c = 102 then some 12
  else if c = 110 then some 10
  else if c = 114 then some 13
  else if c = 48 then some 0
  else none

/-- The character loop of `Parser::unescape` over the slice without its
delimiters. The `panic` outcome is the `chars.next().unwrap()` after a
backslash (unreachable for lexed tokens: the lexer rejects a string ending
in a lone backslash). The source iterates `char`s; this byte-level model
agrees with it on ASCII content, and no claim involves non-ASCII input. -/
def unescapeAux (sp : Span) : List Nat → List Nat → UOut
  | [], acc => .ok acc.reverse
  | c :: rest, acc =>
    if c = 92 then
      match rest with
      | [] => .panic
      | e :: rest1 =>
        match escByte e with
        | some b => unescapeAux sp rest1 (b :: acc)
        | none =>
          if e = 120 then
            match rest1 with
            | a :: b :: rest2 =>
              match hexVal a, hexVal b with
              | some va, some vb =>
                let value := 16 * va + vb
                if value > 127 then .err ⟨.stringEscSeqInvalid, none, sp⟩
                else unescapeAux sp rest2 (value :: acc)
              | _, _ => .err ⟨.stringEscSeqInvalid, none, sp⟩
            | _ => .err ⟨.stringEscSeqInvalid, none, sp⟩
          else .err ⟨.stringEscSeqInvalid, none, sp⟩
    else unescapeAux sp rest (c :: acc)

/-- `Parser::unescape`: decode escapes in `slice[1..len-1]`. -/
def unescape (p : Parser) (sp : Span) : UOut :=
  let slice := sliceOf p.source sp
  unescapeAux sp (slice.drop 1 |>.take (slice.length - 2)) []

/-- `Parser::symbol`: accept a `Sym` token, unescape, intern. -/
def symbolP (p : Parser) : POut (Option Sym) :=
  match accept .sym p with
  | (some sp, p1) =>
    match unescape p1 sp with
    | .panic => .panic
    | .err e => .err e
    | .ok s =>
      let r := p1.interner.intern s
      .ok (some r.1) { p1 with interner := r.2 }
  | (none, p1) => .ok none p1

/-- `Parser::string`: accept a `Str` token and unescape it. -/
def stringP (p : Parser) : POut (Option (List Nat)) :=
  match accept .str p with
  | (some sp, p1) =>
    match unescape p1 sp with
    | .panic => .panic
    | .err e => .err e
    | .ok s => .ok (some s) p1
  | (none, p1) => .ok none p1

def i64Min : Int := -(2 ^ 63)

def i64Max : Int := 2 ^ 63 - 1

/-- `i64::checked_mul`. -/
def checkedMul (a b : Int) : Option Int :=
  let x := a * b
  if i64Min ≤ x ∧ x ≤ i64Max then some x else none

/-- `i64::checked_add`. -/
def checkedAdd (a b : Int) : Option Int :=
  let x := a + b
  if i64Min ≤ x ∧ x ≤ i64Max then some x else none

/-- The overflow-checked accumulation loops of `Parser::int`:
`value = value.checked_mul(radix)?.checked_add(digit)?`. -/
def accumDigits (radix : Int) (digitOf : Nat → Int) :
    List Nat → Int → Option Int
  | [], v => some v
  | d :: ds, v =>
    match checkedMul v radix with
    | none => none
    | some v1 =>
      match checkedAdd v1 (digitOf d) with
      | none => none
      | some v2 => accumDigits radix digitOf ds v2

/-- The hexadecimal digit mapping in `Parser::int` (an `if` chain whose last
arm subtracts `b'A'`). -/
def hexDigitOf (d : Nat) : Int :=
  if 48 ≤ d && d ≤ 57 then (d : Int) - 48
  else if 97 ≤ d && d ≤ 102 then 10 + ((d : Int) - 97)
  else 10 + ((d : Int) - 65)

/-- Value decoding of `Parser::int` from the token slice: dispatch on the
radix prefix and accumulate with overflow-checked `i64` arithmetic; `none`
is the `IntInvalid` overflow error. (Digit bytes come from the lexer, so
`d - b'0'` never underflows on reachable inputs.) -/
def intFromSlice (slice : List Nat) : Option Int :=
  if slice.take 2 = strBytes "0b" then
    accumDigits 2 (fun d => (d : Int) - 48) (slice.drop 2) 0
  else if slice.take 2 = strBytes "0o" then
    accumDigits 8 (fun d => (d : Int) - 48) (slice.drop 2) 0
  else if slice.take 2 = strBytes "0x" then
    accumDigits 16 hexDigitOf (slice.drop 2) 0
  else
    accumDigits 10 (fun d => (d : Int) - 48) slice 0

/-- `Parser::int`. -/
def intP (p : Parser) : POut (Option Int) :=
  match accept .int p with
  | (some sp, p1) =>
    match intFromSlice (sliceOf p1.source sp) with
    | some v => .ok (some v) p1
    | none => .err ⟨.intInvalid, none, sp⟩
  | (none, p1) => .ok none p1

/-- Stand-in for `str::parse::<f64>` in `Parser::float`: float payloads are
opaque (floating point is out of scope for every claim); the parse is
modelled as always succeeding with the opaque value. -/
def floatFromSlice (_slice : List Nat) : Option F64 := some ⟨0⟩

/-- `Parser::float`. -/
def floatP (p : Parser) : POut (Option F64) :=
  match accept .float p with
  | (some sp, p1) =>
    match floatFromSlice (sliceOf p1.source sp) with
    | some v => .ok (some v) p1
    | none => .err ⟨.floatInvalid, none, sp⟩
  | (none, p1) => .ok none p1

/-- `Parser::bool`. -/
def boolP (p : Parser) : POut (Option Bool) :=
  match accept .trueK p with
  | (some _, p1) => .ok (some true) p1
  | (none, p1) =>
    match accept .falseK p1 with
    | (some _, p2) => .ok (some false) p2
    | (none, p2) => .ok none p2

/-- Uniform result of the merged recursive parser `parseGo`: one
constructor per return type among the Rust parser's mutually recursive
productions. -/
inductive PRes where
  | optPat (x : Option Pat)
  | optPatEntry (x : Option (TupleEntry Pat))
  | patEntries (x : List (TupleEntry Pat))
  | optPatTuple (x : Option (Tuple Pat))
  | optEntry (x : Option (TupleEntry Expr))
  | entries (x : List (TupleEntry Expr))
  | optTuple (x : Option (Tuple Expr))
  | exprList (x : List Expr)
  | optExprList (x : Option (List Expr))
  | optStmt (x : Option Stmt)
  | stmtList (x : List Stmt)
  | optExpr (x : Option Expr)
  | expr (x : Expr)

/-- The production requests of the merged parser, one per mutually
recursive Rust parser function (`while accept(Comma)` loops carry their
accumulator; Lean 4.14 compiles `mutual` definitions in a form that does
not reduce inside the kernel at a workable cost, so the mutual family is
merged into one structurally recursive function over this request type). -/
inductive PReq where
  | pat
  | patTuple
  | patTupleEntry
  | patTupleLoop (acc : List (TupleEntry Pat))
  | tupleEntry
  | tupleEntriesLoop (acc : List (TupleEntry Expr))
  | tuple
  | listLoop (acc : List Expr)
  | list
  | stmt
  | stmtsLoop (acc : List Stmt)
  | stmts
  | block
  | atom
  | callLoop (left : Expr)
  | functionArgs
  | function
  | ifElse
  | binOpLoop (minPrec : Nat) (left : Expr)
  | exprWithPrec (minPrec : Nat)
  | expr

def PRes.asOptPat : PRes → Option (Option Pat)
  | .optPat x => some x
  | _ => none

def PRes.asOptPatEntry : PRes → Option (Option (TupleEntry Pat))
  | .optPatEntry x => some x
  | _ => none

def PRes.asPatEntries : PRes → Option (List (TupleEntry Pat))
  | .patEntries x => some x
  | _ => none

def PRes.asOptPatTuple : PRes → Option (Option (Tuple Pat))
  | .optPatTuple x => some x
  | _ => none

def PRes.asOptEntry : PRes → Option (Option (TupleEntry Expr))
  | .optEntry x => some x
  | _ => none

def PRes.asEntries : PRes → Option (List (TupleEntry Expr))
  | .entries x => some x
  | _ => none

def PRes.asOptTuple : PRes → Option (Option (Tuple Expr))
  | .optTuple x => some x
  | _ => none

def PRes.asExprList : PRes → Option (List Expr)
  | .exprList x => some x
  | _ => none

def PRes.asOptExprList : PRes → Option (Option (List Expr))
  | .optExprList x => some x
  | _ => none

def PRes.asOptStmt : PRes → Option (Option Stmt)
  | .optStmt x => some x
  | _ => none

def PRes.asStmtList : PRes → Option (List Stmt)
  | .stmtList x => some x
  | _ => none

def PRes.asOptExpr : PRes → Option (Option Expr)
  | .optExpr x => some x
  | _ => none

def PRes.asExpr : PRes → Option Expr
  | .expr x => some x
  | _ => none

/-- Project a parse result to the payload a request is known to produce;
the cross-shape `none` case never arises because `parseGo` answers every
request with that request's constructor. -/
def extractP {α : Type} (f : PRes → Option α) (m : POut PRes) : POut α :=
  match m with
  | .ok r p =>
    match f r with
    | some a => .ok a p
    | none => .panic
  | .err e => .err e
  | .panic => .panic
  | .div => .div

/-- The merged Rust parser productions; each arm is one Rust function:
`pat`, `pat_tuple`, `pat_tuple_entry` (and its comma loop), `tuple_entry`,
`tuple` (and its comma loop), `list` (and its loop), `stmt`, `stmts` (and
its loop), `block`, `atom`, the call-folding loop, `function_args`,
`function`, `if_else`, the binary-operator loop, `expr_with_precedence`,
and `expr`. -/
def parseGo : Nat → PReq → Parser → POut PRes
  | 0, _, _ => .div
  | fuel + 1, .pat, p =>
    bindP (extractP PRes.asOptPatTuple (parseGo fuel .patTuple p)) fun ot p1 =>
      match ot with
      | some members => .ok (.optPat (some (Pat.tuple members))) p1
      | none =>
        match acceptSym .ident p1 with
        | (some s, p2) => .ok (.optPat (some (Pat.ident s))) p2
        | (none, p2) =>
          match acceptSym .ctxIdent p2 with
          | (some s, p3) => .ok (.optPat (some (Pat.ctxIdent s))) p3
          | (none, p3) => .ok (.optPat none) p3
  | fuel + 1, .patTuple, p =>
    let i := p.index
    match accept .lParen p with
    | (some _, p1) =>
      bindP (extractP PRes.asOptPatEntry (parseGo fuel .patTupleEntry p1))
        fun ofirst p2 =>
        bindP
          (match ofirst with
           | some e => extractP PRes.asPatEntries (parseGo fuel (.patTupleLoop [e]) p2)
           | none => .ok [] p2) fun entries p3 =>
          match accept .rParen p3 with
          | (some _, p4) => .ok (.optPatTuple (some (Tuple.fromEntries entries))) p4
          | (none, p4) => .ok (.optPatTuple none) p4
    | (none, p1) => .ok (.optPatTuple none) { p1 with index := i }
  | fuel + 1, .patTupleEntry, p =>
    match acceptSym .ident p with
    | (some identifier, p1) =>
      match accept .colon p1 with
      | (some _, p2) =>
        bindP (extractP PRes.asOptPat (parseGo fuel .pat p2)) fun opat p3 =>
          .ok (.optPatEntry (some (.named identifier
            (opat.getD (Pat.ident identifier))))) p3
      | (none, p2) => .ok (.optPatEntry (some (.pos (Pat.ident identifier)))) p2
    | (none, p1) =>
      bindP (extractP PRes.asOptPat (parseGo fuel .pat p1)) fun opat p2 =>
        match opat with
        | some pat => .ok (.optPatEntry (some (.pos pat))) p2
        | none => .ok (.optPatEntry none) p2
  | fuel + 1, .patTupleLoop acc, p =>
    match accept .comma p with
    | (none, p1) => .ok (.patEntries acc) p1
    | (some _, p1) =>
      bindP (extractP PRes.asOptPatEntry (parseGo fuel .patTupleEntry p1))
        fun oe p2 =>
        match oe with
        | some e => parseGo fuel (.patTupleLoop (acc ++ [e])) p2
        | none => parseGo fuel (.patTupleLoop acc) p2
  | fuel + 1, .tupleEntry, p =>
    let i := p.index
    match acceptSym .ident p with
    | (some identifier, p1) =>
      match accept .colon p1 with
      | (some _, p2) =>
        bindP (extractP PRes.asOptExpr (parseGo fuel .expr p2)) fun oe p3 =>
          .ok (.optEntry (some (.named identifier
            (oe.getD (Expr.unknown (.ident identifier)))))) p3
      | (none, p2) =>
        bindP (extractP PRes.asOptExpr (parseGo fuel .expr { p2 with index := i }))
          fun oe p3 =>
          match oe with
          | some e => .ok (.optEntry (some (.pos e))) p3
          | none => .ok (.optEntry none) p3
    | (none, p1) =>
      bindP (extractP PRes.asOptExpr (parseGo fuel .expr p1)) fun oe p2 =>
        match oe with
        | some e => .ok (.optEntry (some (.pos e))) p2
        | none => .ok (.optEntry none) p2
  | fuel + 1, .tupleEntriesLoop acc, p =>
    match accept .comma p with
    | (none, p1) => .ok (.entries acc) p1
    | (some _, p1) =>
      bindP (extractP PRes.asOptEntry (parseGo fuel .tupleEntry p1)) fun oe p2 =>
        match oe with
        | some e => parseGo fuel (.tupleEntriesLoop (acc ++ [e])) p2
        | none => parseGo fuel (.tupleEntriesLoop acc) p2
  | fuel + 1, .tuple, p =>
    let i := p.index
    match accept .lParen p with
    | (some lparenSpan, p1) =>
      bindP (extractP PRes.asOptEntry (parseGo fuel .tupleEntry p1)) fun ofirst p2 =>
        bindP
          (match ofirst with
           | some e => extractP PRes.asEntries (parseGo fuel (.tupleEntriesLoop [e]) p2)
           | none => .ok [] p2) fun entries p3 =>
          match accept .rParen p3 with
          | (some _, p4) => .ok (.optTuple (some (Tuple.fromEntries entries))) p4
          | (none, _) => .err ⟨.delimiters, none, lparenSpan⟩
    | (none, p1) => .ok (.optTuple none) { p1 with index := i }
  | fuel + 1, .listLoop acc, p =>
    match accept .comma p with
    | (none, p1) => .ok (.exprList acc) p1
    | (some _, p1) =>
      bindP (extractP PRes.asOptExpr (parseGo fuel .expr p1)) fun oe p2 =>
        match oe with
        | some e => parseGo fuel (.listLoop (acc ++ [e])) p2
        | none => parseGo fuel (.listLoop acc) p2
  | fuel + 1, .list, p =>
    match accept .lBracket p with
    | (some lbracketSpan, p1) =>
      bindP (extractP PRes.asOptExpr (parseGo fuel .expr p1)) fun ofirst p2 =>
        bindP
          (match ofirst with
           | some e => extractP PRes.asExprList (parseGo fuel (.listLoop [e]) p2)
           | none => .ok [] p2) fun exprs p3 =>
          match accept .rBracket p3 with
          | (some _, p4) => .ok (.optExprList (some exprs)) p4
          | (none, _) => .err ⟨.delimiters, none, lbracketSpan⟩
    | (none, p1) => .ok (.optExprList none) p1
  | fuel + 1, .stmt, p =>
    match accept .letK p with
    | (some _, p1) =>
      bindP (extractP PRes.asOptPat (parseGo fuel .pat p1)) fun opat p2 =>
        match opat with
        | none => .err (invalidToken p2)
        | some pattern =>
          bindP (extractP PRes.asOptPatTuple (parseGo fuel .patTuple p2))
            fun args p3 =>
            match accept .eq p3 with
            | (none, p4) => .err (invalidToken p4)
            | (some _, p4) =>
              bindP (extractP PRes.asOptExpr (parseGo fuel .expr p4)) fun oe p5 =>
                match oe with
                | none => .err (invalidToken p5)
                | some e =>
                  match args with
                  | some args =>
                    .ok (.optStmt (some (.letS pattern
                      (Expr.unknown (.fn args e))))) p5
                  | none => .ok (.optStmt (some (.letS pattern e))) p5
    | (none, p1) =>
      bindP (extractP PRes.asOptExpr (parseGo fuel .expr p1)) fun oe p2 =>
        match oe with
        | some e => .ok (.optStmt (some (.expr e))) p2
        | none => .ok (.optStmt none) p2
  | fuel + 1, .stmtsLoop acc, p =>
    match accept .comma p with
    | (none, p1) => .ok (.stmtList acc) p1
    | (some _, p1) =>
      bindP (extractP PRes.asOptStmt (parseGo fuel .stmt p1)) fun ost p2 =>
        match ost with
        | some st => parseGo fuel (.stmtsLoop (acc ++ [st])) p2
        | none => parseGo fuel (.stmtsLoop acc) p2
  | fuel + 1, .stmts, p =>
    bindP (extractP PRes.asOptStmt (parseGo fuel .stmt p)) fun ost p1 =>
      match ost with
      | some st => parseGo fuel (.stmtsLoop [st]) p1
      | none => .ok (.stmtList []) p1
  | fuel + 1, .block, p =>
    match accept .lBrace p with
    | (some lbraceSpan, p1) =>
      bindP (extractP PRes.asStmtList (parseGo fuel .stmts p1)) fun statements p2 =>
        match accept .rBrace p2 with
        | (none, _) => .err ⟨.delimiters, none, lbraceSpan⟩
        | (some _, p3) =>
          match statements with
          | [] => .ok (.optExpr (some (Expr.unknown .void))) p3
          | [.expr e] => .ok (.optExpr (some e)) p3
          | _ => .ok (.optExpr (some (Expr.unknown (.block statements)))) p3
    | (none, p1) => .ok (.optExpr none) p1
  | fuel + 1, .atom, p =>
    bindP (extractP PRes.asOptTuple (parseGo fuel .tuple p)) fun ot p1 =>
      match ot with
      | some t => .ok (.optExpr (some (Expr.unknown (.tuple t)))) p1
      | none =>
        bindP (extractP PRes.asOptExprList (parseGo fuel .list p1)) fun ol p2 =>
          match ol with
          | some items => .ok (.optExpr (some (Expr.unknown (.list items)))) p2
          | none =>
            bindP (extractP PRes.asOptExpr (parseGo fuel .block p2)) fun ob p3 =>
              match ob with
              | some b => .ok (.optExpr (some b)) p3
              | none =>
                match acceptSym .ident p3 with
                | (some s, p4) => .ok (.optExpr (some (Expr.unknown (.ident s)))) p4
                | (none, p4) =>
                  match acceptSym .ctxIdent p4 with
                  | (some s, p5) =>
                    .ok (.optExpr (some (Expr.unknown (.ctxIdent s)))) p5
                  | (none, p5) =>
                    bindP (symbolP p5) fun os p6 =>
                      match os with
                      | some s => .ok (.optExpr (some (Expr.unknown (.sym s)))) p6
                      | none =>
                        bindP (stringP p6) fun ostr p7 =>
                          match ostr with
                          | some s =>
                            .ok (.optExpr (some (Expr.unknown (.str s)))) p7
                          | none =>
                            bindP (intP p7) fun oi p8 =>
                              match oi with
                              | some v =>
                                .ok (.optExpr (some (Expr.unknown (.int v)))) p8
                              | none =>
                                bindP (floatP p8) fun ofl p9 =>
                                  match ofl with
                                  | some v =>
                                    .ok (.optExpr (some
                                      (Expr.unknown (.float v)))) p9
                                  | none =>
                                    bindP (boolP p9) fun obl p10 =>
                                      match obl with
                                      | some b =>
                                        .ok (.optExpr (some
                                          (Expr.unknown (.bool b)))) p10
                                      | none => .ok (.optExpr none) p10
  | fuel + 1, .callLoop left, p =>
    bindP (extractP PRes.asOptTuple (parseGo fuel .tuple p)) fun ot p1 =>
      match ot with
      | some t => parseGo fuel (.callLoop (Expr.unknown (.call left t))) p1
      | none => .ok (.expr left) p1
  | fuel + 1, .functionArgs, p =>
    match accept .or p with
    | (some _, p1) =>
      bindP (extractP PRes.asOptPatEntry (parseGo fuel .patTupleEntry p1))
        fun ofirst p2 =>
        bindP
          (match ofirst with
           | some e => extractP PRes.asPatEntries (parseGo fuel (.patTupleLoop [e]) p2)
           | none => .ok [] p2) fun args p3 =>
          match accept .or p3 with
          | (some _, p4) => .ok (.optPatTuple (some (Tuple.fromEntries args))) p4
          | (none, p4) => .err (invalidToken p4)
    | (none, p1) => .ok (.optPatTuple none) p1
  | fuel + 1, .function, p =>
    bindP (extractP PRes.asOptPatTuple (parseGo fuel .functionArgs p)) fun oargs p1 =>
      match oargs with
      | some args =>
        bindP (extractP PRes.asOptExpr (parseGo fuel .expr p1)) fun oe p2 =>
          .ok (.optExpr (some (Expr.unknown
            (.fn args (oe.getD (Expr.unknown .void)))))) p2
      | none => .ok (.optExpr none) p1
  | fuel + 1, .ifElse, p =>
    match accept .ifK p with
    | (none, p1) => .ok (.optExpr none) p1
    | (some _, p1) =>
      bindP (extractP PRes.asOptExpr (parseGo fuel .expr p1)) fun ocond p2 =>
        match ocond with
        | none => .err (invalidToken p2)
        | some condition =>
          bindP (extractP PRes.asOptExpr (parseGo fuel .block p2)) fun oif p3 =>
            match oif with
            | none => .err (invalidToken p3)
            | some ifExpr =>
              match accept .elseK p3 with
              | (none, p4) => .err (invalidToken p4)
              | (some _, p4) =>
                bindP (extractP PRes.asOptExpr (parseGo fuel .ifElse p4)) fun oie p5 =>
                  match oie with
                  | some elseExpr =>
                    .ok (.optExpr (some (Expr.unknown
                      (.ifElse condition ifExpr elseExpr)))) p5
                  | none =>
                    bindP (extractP PRes.asOptExpr (parseGo fuel .block p5))
                      fun ob p6 =>
                      match ob with
                      | some elseExpr =>
                        .ok (.optExpr (some (Expr.unknown
                          (.ifElse condition ifExpr elseExpr)))) p6
                      | none => .err (invalidToken p6)
  | fuel + 1, .binOpLoop minPrec left, p =>
    match acceptBinOp p with
    | (some (op, lPrec, rPrec), p1) =>
      if lPrec < minPrec then .ok (.expr left) { p1 with index := p1.index - 1 }
      else
        bindP (extractP PRes.asOptExpr (parseGo fuel (.exprWithPrec rPrec) p1))
          fun oright p2 =>
          match oright with
          | some right =>
            parseGo fuel (.binOpLoop minPrec
              (Expr.unknown (.binOp op left right))) p2
          | none => .err (invalidToken p2)
    | (none, p1) => .ok (.expr left) p1
  | fuel + 1, .exprWithPrec minPrec, p =>
    match acceptUnOp p with
    | (some (op, rPrec), p1) =>
      bindP (extractP PRes.asOptExpr (parseGo fuel (.exprWithPrec rPrec) p1))
        fun oright p2 =>
        match oright with
        | some right =>
          bindP (extractP PRes.asExpr (parseGo fuel
              (.binOpLoop minPrec (Expr.unknown (.unOp op right))) p2)) fun e p3 =>
            .ok (.optExpr (some e)) p3
        | none => .err (invalidToken p2)
    | (none, p1) =>
      bindP (extractP PRes.asOptExpr (parseGo fuel .atom p1)) fun oatom p2 =>
        match oatom with
        | some left =>
          bindP (extractP PRes.asExpr (parseGo fuel (.callLoop left) p2))
            fun left1 p3 =>
            bindP (extractP PRes.asExpr (parseGo fuel (.binOpLoop minPrec left1) p3))
              fun e p4 =>
              .ok (.optExpr (some e)) p4
        | none => .ok (.optExpr none) p2
  | fuel + 1, .expr, p =>
    bindP (extractP PRes.asOptExpr (parseGo fuel .function p)) fun ofn p1 =>
      match ofn with
      | some f => .ok (.optExpr (some f)) p1
      | none =>
        bindP (extractP PRes.asOptExpr (parseGo fuel .ifElse p1)) fun oie p2 =>
          match oie with
          | some e => .ok (.optExpr (some e)) p2
          | none =>
            match accept .forK p2 with
            | (some _, _) => .panic
            | (none, p3) => parseGo fuel (.exprWithPrec 0) p3

/-- `Parser::expr`. -/
def exprP (fuel : Nat) (p : Parser) : POut (Option Expr) :=
  extractP PRes.asOptExpr (parseGo fuel .expr p)

/-- `Parser::stmt`. -/
def stmtP (fuel : Nat) (p : Parser) : POut (Option Stmt) :=
  extractP PRes.asOptStmt (parseGo fuel .stmt p)

/-- `Parser::stmts`. -/
def stmtsP (fuel : Nat) (p : Parser) : POut (List Stmt) :=
  extractP PRes.asStmtList (parseGo fuel .stmts p)

/-- The `while accept(Period)` loop of `Parser::module_path`. -/
def modulePathLoopP : Nat → List Sym → Parser → POut (List Sym)
  | 0, _, _ => .div
  | fuel + 1, acc, p =>
    match accept .period p with
    | (none, p1) => .ok acc p1
    | (some _, p1) =>
      match acceptSym .ident p1 with
      | (some s, p2) => modulePathLoopP fuel (acc ++ [s]) p2
      | (none, p2) => .ok acc p2

/-- `Parser::module_path`. -/
def modulePathP (fuel : Nat) (p : Parser) : POut (Option ModPath) :=
  let i := p.index
  let r := accept .period p
  match acceptSym .ident r.2 with
  | (some segment, p2) =>
    bindP (modulePathLoopP fuel [segment] p2) fun segs p3 =>
      .ok (some ⟨r.1.isSome, segs⟩) p3
  | (none, p2) => .ok none { p2 with index := i }

/-- The `while accept(Comma)` loop of `Parser::bindings`; renames are a
source TODO, so every binding is `(name, name)`. -/
def bindingsLoopP : Nat → List (Sym × Sym) → Parser → POut (List (Sym × Sym))
  | 0, _, _ => .div
  | fuel + 1, acc, p =>
    match accept .comma p with
    | (none, p1) => .ok acc p1
    | (some _, p1) =>
      match acceptSym .ident p1 with
      | (some b, p2) => bindingsLoopP fuel (acc ++ [(b, b)]) p2
      | (none, p2) => bindingsLoopP fuel acc p2

/-- `Parser::bindings`. -/
def bindingsP (fuel : Nat) (p : Parser) : POut (Option (List (Sym × Sym))) :=
  match accept .lParen p with
  | (some _, p1) =>
    bindP
      (match acceptSym .ident p1 with
       | (some b, p2) => bindingsLoopP fuel [(b, b)] p2
       | (none, p2) => .ok [] p2) fun bs p3 =>
      match accept .rParen p3 with
      | (some _, p4) => .ok (some bs) p4
      | (none, p4) => .err (invalidToken p4)
  | (none, p1) => .ok none p1

/-- `Parser::dep`. -/
def depP (fuel : Nat) (p : Parser) : POut (Option Dep) :=
  bindP (modulePathP fuel p) fun opath p1 =>
    match opath with
    | some path =>
      bindP (bindingsP fuel p1) fun ob p2 =>
        match ob with
        | some bs => .ok (some ⟨path, bs⟩) p2
        | none => .err (invalidToken p2)
    | none => .ok none p1

/-- The `while accept(Comma)` loop of `Parser::deps`. -/
def depsLoopP : Nat → List Dep → Parser → POut (List Dep)
  | 0, _, _ => .div
  | fuel + 1, acc, p =>
    match accept .comma p with
    | (none, p1) => .ok acc p1
    | (some _, p1) =>
      bindP (depP fuel p1) fun od p2 =>
        match od with
        | some d => depsLoopP fuel (acc ++ [d]) p2
        | none => depsLoopP fuel acc p2

/-- `Parser::deps`. -/
def depsP (fuel : Nat) (p : Parser) : POut (List Dep) :=
  match accept .useK p with
  | (none, p1) => .ok [] p1
  | (some _, p1) =>
    match accept .lBrace p1 with
    | (none, p2) => .err (invalidToken p2)
    | (some _, p2) =>
      bindP (depP fuel p2) fun od p3 =>
        bindP
          (match od with
           | some d => depsLoopP fuel [d] p3
           | none => .ok [] p3) fun ds p4 =>
          match accept .rBrace p4 with
          | (none, p5) => .err (invalidToken p5)
          | (some _, p5) => .ok ds p5

/-- Whether a statement is a bare expression (`Stmt::Expr`). -/
def isExprStmt : Stmt → Bool
  | .expr _ => true
  | _ => false

/-- `Parser::defs`: parse statements, then reject any bare expression with
`invalid_token()` (note: not with `NoUnboundExprAtModuleLevel`). -/
def defsP (fuel : Nat) (p : Parser) : POut (List Stmt) :=
  bindP (stmtsP fuel p) fun ss p1 =>
    if ss.any isExprStmt then .err (invalidToken p1) else .ok ss p1

/-- `Parser::module`. -/
def moduleP (fuel : Nat) (p : Parser) : POut ModAst :=
  bindP (depsP fuel p) fun deps p1 =>
    let r := accept .comma p1
    bindP (defsP fuel r.2) fun defs p2 =>
      .ok ⟨deps, defs⟩ p2

/-- Fuel budget for a parse: each fuel level of the mutual parser either
declines without consuming tokens along a chain of bounded length or
consumes a token, so this bound is never reached on terminating parses. -/
def parserFuel (toks : List Token) : Nat := 64 * (toks.length + 1)

/-- `vamp_syntax::parser::parse_expr`. -/
def parse_expr (src : List Nat) (it : Interner) : POut Expr :=
  match tokenize src with
  | none => .div
  | some (.error e) => .err e
  | some (.ok toks) =>
    bindP (exprP (parserFuel toks) ⟨src, toks, 0, it⟩) fun oe p =>
      .ok (oe.getD (Expr.unknown .void)) p

/-- `vamp_syntax::parser::parse_stmt`. -/
def parse_stmt (src : List Nat) (it : Interner) : POut Stmt :=
  match tokenize src with
  | none => .div
  | some (.error e) => .err e
  | some (.ok toks) =>
    bindP (stmtP (parserFuel toks) ⟨src, toks, 0, it⟩) fun os p =>
      .ok (os.getD (.expr (Expr.unknown .void))) p

/-- `vamp_syntax::parser::parse_module`. -/
def parse_module (src : List Nat) (it : Interner) : POut ModAst :=
  match tokenize src with
  | none => .div
  | some (.error e) => .err e
  | some (.ok toks) => moduleP (parserFuel toks) ⟨src, toks, 0, it⟩

/-- Runtime error kinds (`vamp_eval::error::Error`). -/
inductive EvalError where
  | void
  | types
  | keyNotFound
  | unbound
  | mismatch
deriving DecidableEq, Repr

/-- Runtime values (`vamp_eval::value::Value`); the fields of the Rust `Fn`
struct (`params`, `body`, `scope`) are inlined into the `fn` constructor,
with the captured `Rc<RefCell<Scope>>` handle as a store index. -/
inductive Value where
  | bool (b : Bool)
  | sym (s : Sym)
  | str (s : List Nat)
  | int (v : Int)
  | float (v : F64)
  | tuple (t : Tuple Value)
  | list (items : List Value)
  | fn (params : Tuple Pat) (body : Expr) (scope : Nat)

/-- A scope frame (`vamp_eval::value::Scope`): parent handle and bindings. -/
structure Scope where
  parent : Option Nat
  bindings : Tuple Value

/-- The store of shared mutable scope frames: each `Rc<RefCell<Scope>>` is
an index into this list; allocation appends. -/
abbrev Store := List Scope

/-- Dereference a scope handle. Handles produced by `alloc` are always in
range; the default is never reached on such handles. -/
def getScope (s : Store) (r : Nat) : Scope := s.getD r ⟨none, .new⟩

/-- Write through a scope handle (`borrow_mut`). -/
def setScope (s : Store) (r : Nat) (sc : Scope) : Store := s.set r sc

/-- `Rc::new(RefCell::new(_))`: allocate a fresh handle. -/
def alloc (s : Store) (sc : Scope) : Nat × Store := (s.length, s ++ [sc])

/-- `Scope::bind`: insert into this frame's bindings. -/
def Scope.bind (sc : Scope) (name : Sym) (value : Value) : Scope :=
  { sc with bindings := sc.bindings.insert name value }

/-- Fueled worker for `Scope::lookup`'s parent-chain walk. The fuel below
covers every chain in a store whose parent handles point to earlier frames,
which is an invariant of all frames the evaluator allocates. -/
def lookupAux : Nat → Store → Nat → Sym → Option Value
  | 0, _, _, _ => none
  | fuel + 1, s, r, name =>
    let sc := getScope s r
    match sc.bindings.getKey name with
    | some v => some v
    | none =>
      match sc.parent with
      | some pr => lookupAux fuel s pr name
      | none => none

/-- `Scope::lookup`: walk the parent chain; `none` is the `Unbound` error. -/
def Scope.lookup (s : Store) (r : Nat) (name : Sym) : Option Value :=
  lookupAux (s.length + 1) s r name

/-- Reduce an exact integer into `i64` two's-complement range: the release
arithmetic of `+`, `-`, `*`, unary `-` and `pow` wraps (debug builds panic
on overflow instead; no claim below depends on that choice). -/
def wrap64 (x : Int) : Int := (x + 2 ^ 63) % 2 ^ 64 - 2 ^ 63

/-- Opaque float negation (floating point is out of scope). -/
def fNeg (_a : F64) : F64 := ⟨0⟩

/-- Opaque float arithmetic (floating point is out of scope). -/
def fArith (_a _b : F64) : F64 := ⟨0⟩

/-- Opaque float equality: tag comparison (`NaN` behaviour is out of
scope). -/
def fBeq (a b : F64) : Bool := a.tag == b.tag

/-- Opaque float ordering (out of scope). -/
def fLt (a b : F64) : Bool := a.tag < b.tag

/-- Opaque float ordering (out of scope). -/
def fLe (a b : F64) : Bool := a.tag ≤ b.tag

/-- Byte-wise lexicographic `<` on strings (Rust `String: PartialOrd`). -/
def listLtNat : List Nat → List Nat → Bool
  | [], [] => false
  | [], _ :: _ => true
  | _ :: _, [] => false
  | a :: as_, b :: bs =>
    if a < b then true else if b < a then false else listLtNat as_ bs

/-- Byte-wise lexicographic `≤` on strings. -/
def listLeNat : List Nat → List Nat → Bool
  | [], _ => true
  | _ :: _, [] => false
  | a :: as_, b :: bs =>
    if a < b then true else if b < a then false else listLeNat as_ bs

/-- Request type merging the mutually recursive pattern-equality pair. -/
inductive PatEqReq where
  | one (a b : Pat)
  | many (a b : List Pat)

/-- Structural equality on patterns (`Pat: PartialEq`), fueled because of
the nesting through `Tuple`, and merged into one recursion for kernel
reducibility. -/
def beqPatGo : Nat → PatEqReq → Bool
  | 0, _ => false
  | fuel + 1, .one a b =>
    match a, b with
    | .tuple t1, .tuple t2 =>
      t1.keys == t2.keys && beqPatGo fuel (.many t1.data t2.data)
    | .list l1, .list l2 => beqPatGo fuel (.many l1 l2)
    | .ident s1, .ident s2 => s1 == s2
    | .ctxIdent s1, .ctxIdent s2 => s1 == s2
    | .sym s1, .sym s2 => s1 == s2
    | .str s1, .str s2 => s1 == s2
    | .int v1, .int v2 => v1 == v2
    | .float v1, .float v2 => fBeq v1 v2
    | .bool b1, .bool b2 => b1 == b2
    | .wild, .wild => true
    | _, _ => false
  | _ + 1, .many [] [] => true
  | fuel + 1, .many (x :: xs) (y :: ys) =>
    beqPatGo fuel (.one x y) && beqPatGo fuel (.many xs ys)
  | _ + 1, .many _ _ => false

def beqPatList (fuel : Nat) (a b : List Pat) : Bool := beqPatGo fuel (.many a b)

/-- Request type merging the mutually recursive expression-equality
family. -/
inductive ExprEqReq where
  | one (a b : Expr)
  | many (a b : List Expr)
  | stmt (a b : Stmt)
  | stmts (a b : List Stmt)

/-- Structural equality on expressions and statements (`Expr: PartialEq`,
`Stmt: PartialEq`), fueled and merged. -/
def beqExprGo : Nat → ExprEqReq → Bool
  | 0, _ => false
  | fuel + 1, .one (.mk _ k1) (.mk _ k2) =>
    match k1, k2 with
    | .void, .void => true
    | .block s1, .block s2 => beqExprGo fuel (.stmts s1 s2)
    | .tuple t1, .tuple t2 =>
      t1.keys == t2.keys && beqExprGo fuel (.many t1.data t2.data)
    | .list l1, .list l2 => beqExprGo fuel (.many l1 l2)
    | .call f1 a1, .call f2 a2 =>
      beqExprGo fuel (.one f1 f2) &&
        (a1.keys == a2.keys && beqExprGo fuel (.many a1.data a2.data))
    | .fn p1 b1, .fn p2 b2 =>
      (p1.keys == p2.keys && beqPatList fuel p1.data p2.data) &&
        beqExprGo fuel (.one b1 b2)
    | .ident s1, .ident s2 => s1 == s2
    | .ctxIdent s1, .ctxIdent s2 => s1 == s2
    | .sym s1, .sym s2 => s1 == s2
    | .str s1, .str s2 => s1 == s2
    | .int v1, .int v2 => v1 == v2
    | .float v1, .float v2 => fBeq v1 v2
    | .bool b1, .bool b2 => b1 == b2
    | .unOp o1 e1, .unOp o2 e2 => o1 == o2 && beqExprGo fuel (.one e1 e2)
    | .binOp o1 l1 r1, .binOp o2 l2 r2 =>
      o1 == o2 && beqExprGo fuel (.one l1 l2) && beqExprGo fuel (.one r1 r2)
    | .ifElse c1 t1 e1, .ifElse c2 t2 e2 =>
      beqExprGo fuel (.one c1 c2) && beqExprGo fuel (.one t1 t2) &&
        beqExprGo fuel (.one e1 e2)
    | _, _ => false
  | fuel + 1, .stmt a b =>
    match a, b with
    | .letS p1 e1, .letS p2 e2 =>
      beqPatGo fuel (.one p1 p2) && beqExprGo fuel (.one e1 e2)
    | .expr e1, .expr e2 => beqExprGo fuel (.one e1 e2)
    | _, _ => false
  | _ + 1, .many [] [] => true
  | fuel + 1, .many (x :: xs) (y :: ys) =>
    beqExprGo fuel (.one x y) && beqExprGo fuel (.many xs ys)
  | _ + 1, .many _ _ => false
  | _ + 1, .stmts [] [] => true
  | fuel + 1, .stmts (x :: xs) (y :: ys) =>
    beqExprGo fuel (.stmt x y) && beqExprGo fuel (.stmts xs ys)
  | _ + 1, .stmts _ _ => false

def beqExpr (fuel : Nat) (a b : Expr) : Bool := beqExprGo fuel (.one a b)

/-- Request type merging the mutually recursive value-equality family. -/
inductive ValEqReq where
  | one (a b : Value)
  | many (a b : List Value)
  | scopes (r1 r2 : Nat)

/-- Structural equality on values (`Value: PartialEq`), fueled and merged.
A `Fn` value compares `params`, `body` and the captured scope handle's
contents (`Rc<RefCell<Scope>>: PartialEq` dereferences and compares the
scopes, recursively through parents). -/
def beqValueGo : Nat → Store → ValEqReq → Bool
  | 0, _, _ => false
  | fuel + 1, s, .one a b =>
    match a, b with
    | .bool b1, .bool b2 => b1 == b2
    | .sym s1, .sym s2 => s1 == s2
    | .str s1, .str s2 => s1 == s2
    | .int v1, .int v2 => v1 == v2
    | .float v1, .float v2 => fBeq v1 v2
    | .tuple t1, .tuple t2 =>
      t1.keys == t2.keys && beqValueGo fuel s (.many t1.data t2.data)
    | .list l1, .list l2 => beqValueGo fuel s (.many l1 l2)
    | .fn p1 b1 r1, .fn p2 b2 r2 =>
      (p1.keys == p2.keys && beqPatList fuel p1.data p2.data) &&
        beqExpr fuel b1 b2 && beqValueGo fuel s (.scopes r1 r2)
    | _, _ => false
  | _ + 1, _, .many [] [] => true
  | fuel + 1, s, .many (x :: xs) (y :: ys) =>
    beqValueGo fuel s (.one x y) && beqValueGo fuel s (.many xs ys)
  | _ + 1, _, .many _ _ => false
  | fuel + 1, s, .scopes r1 r2 =>
    let sc1 := getScope s r1
    let sc2 := getScope s r2
    (match sc1.parent, sc2.parent with
     | none, none => true
     | some a, some b => beqValueGo fuel s (.scopes a b)
     | _, _ => false) &&
      (sc1.bindings.keys == sc2.bindings.keys &&
        beqValueGo fuel s (.many sc1.bindings.data sc2.bindings.data))

def beqValueList (fuel : Nat) (s : Store) (a b : List Value) : Bool :=
  beqValueGo fuel s (.many a b)

/-- Outcome of pattern binding (`bind` / `bind_tuple` mutate the two scope
frames in place; an error still returns the partially mutated frames,
because the Rust `?` propagates after the `&mut` writes happened). -/
inductive BOut where
  | div
  | panic
  | ok (scope ctx : Scope)
  | err (e : EvalError) (scope ctx : Scope)

/-- Request type merging `bind` with the entry loop of `bind_tuple`. -/
inductive BindReq where
  | pat (p : Pat) (v : Value)
  | entries (es : List (TupleEntry Pat)) (vt : Tuple Value) (i : Nat)

/-- The merged recursion of `vamp_eval::bind` and `vamp_eval::bind_tuple`:
pattern-directed binding into the lexical and context frames. `Pat::List`
falls into the `_ => todo!()` arm, a panic. In the entry loop, positional
sub-patterns consume consecutive positional indices, named sub-patterns
look up by key, and a missing entry is a `Mismatch`. -/
def bindGo : Nat → BindReq → Scope → Scope → BOut
  | 0, _, _, _ => .div
  | fuel + 1, .pat pat value, scope, ctx =>
    match pat with
    | .ident s => .ok (scope.bind s value) ctx
    | .ctxIdent s => .ok scope (ctx.bind s value)
    | .sym s =>
      match value with
      | .sym v => if v = s then .ok scope ctx else .err .mismatch scope ctx
      | _ => .err .mismatch scope ctx
    | .str s =>
      match value with
      | .str v => if v = s then .ok scope ctx else .err .mismatch scope ctx
      | _ => .err .mismatch scope ctx
    | .int x =>
      match value with
      | .int v => if v = x then .ok scope ctx else .err .mismatch scope ctx
      | _ => .err .mismatch scope ctx
    | .float x =>
      match value with
      | .float v =>
        if fBeq v x then .ok scope ctx else .err .mismatch scope ctx
      | _ => .err .mismatch scope ctx
    | .bool x =>
      match value with
      | .bool v => if v = x then .ok scope ctx else .err .mismatch scope ctx
      | _ => .err .mismatch scope ctx
    | .tuple t =>
      match value with
      | .tuple vt => bindGo fuel (.entries t.entries vt 0) scope ctx
      | _ => .err .mismatch scope ctx
    | .wild => .ok scope ctx
    | .list _ => .panic
  | _ + 1, .entries [] _ _, scope, ctx => .ok scope ctx
  | fuel + 1, .entries (e :: es) value i, scope, ctx =>
    match e with
    | .pos pat =>
      match value.getPos i with
      | none => .err .mismatch scope ctx
      | some v =>
        match bindGo fuel (.pat pat v) scope ctx with
        | .ok scope1 ctx1 => bindGo fuel (.entries es value (i + 1)) scope1 ctx1
        | out => out
    | .named key pat =>
      match value.getKey key with
      | none => .err .mismatch scope ctx
      | some v =>
        match bindGo fuel (.pat pat v) scope ctx with
        | .ok scope1 ctx1 => bindGo fuel (.entries es value i) scope1 ctx1
        | out => out

/-- `vamp_eval::bind`. -/
def bind (fuel : Nat) (pat : Pat) (value : Value) (scope ctx : Scope) : BOut :=
  bindGo fuel (.pat pat value) scope ctx

/-- The entry loop of `vamp_eval::bind_tuple`, from an explicit entry list
and positional counter. -/
def bindTupleEntries (fuel : Nat) (es : List (TupleEntry Pat))
    (value : Tuple Value) (i : Nat) (scope ctx : Scope) : BOut :=
  bindGo fuel (.entries es value i) scope ctx

/-- `vamp_eval::bind_tuple`. -/
def bind_tuple (fuel : Nat) (pat : Tuple Pat) (value : Tuple Value)
    (scope ctx : Scope) : BOut :=
  bindGo fuel (.entries pat.entries value 0) scope ctx

/-- Outcome of evaluation: `ok`/`err` carry the store (mutations through
shared scope handles persist across error propagation), `panic` models a
Rust panic, `div` models running out of fuel (or genuine divergence). -/
inductive EOut (α : Type) where
  | div
  | panic
  | err (e : EvalError) (s : Store)
  | ok (a : α) (s : Store)

/-- Propagate `err`/`panic`/`div` like Rust's `?`. -/
def bindE {α β : Type} (m : EOut α) (f : α → Store → EOut β) : EOut β :=
  match m with
  | .ok a s => f a s
  | .err e s => .err e s
  | .panic => .panic
  | .div => .div

/-- Uniform result of the merged evaluator `evalGo`. -/
inductive EvalRes where
  | value (v : Value)
  | tuple (t : Tuple Value)
  | values (vs : List Value)
  | optValue (ov : Option Value)

/-- Requests of the merged evaluator, one per mutually recursive Rust
function (merged, like the parser, for kernel reducibility): expression
evaluation, the entry loop shared by tuple construction and call-argument
evaluation, the list-item loop, the block-statement loop, and statement
evaluation. -/
inductive EvalReq where
  | expr (e : Expr)
  | entries (es : List (TupleEntry Expr)) (acc : Tuple Value)
  | items (its : List Expr) (acc : List Value)
  | blockStmts (stmts : List Stmt)
  | stmt (st : Stmt)

def EvalRes.asValue : EvalRes → Option Value
  | .value v => some v
  | _ => none

def EvalRes.asTuple : EvalRes → Option (Tuple Value)
  | .tuple t => some t
  | _ => none

def EvalRes.asOptValue : EvalRes → Option (Option Value)
  | .optValue ov => some ov
  | _ => none

def EvalRes.asValues : EvalRes → Option (List Value)
  | .values vs => some vs
  | _ => none

/-- Project an evaluation result to the payload a request is known to
produce; the cross-shape `none` case never arises because `evalGo` answers
every request with that request's constructor. -/
def extractE {α : Type} (f : EvalRes → Option α) (m : EOut EvalRes) : EOut α :=
  match m with
  | .ok r s =>
    match f r with
    | some a => .ok a s
    | none => .panic
  | .err e s => .err e s
  | .panic => .panic
  | .div => .div

/-- The merged recursion of `vamp_eval::eval_expr` and `eval_stmt` (with
their loops): the tree-walking evaluator, over a lexical scope handle, a
context scope handle, and the scope store. In `eval_stmt`'s `Let` arm the
binding goes through `scope.borrow_mut()` and `ctx.borrow_mut()`; when the
two handles are the same `Rc`, the double `borrow_mut` panics. -/
def evalGo : Nat → EvalReq → Nat → Nat → Store → EOut EvalRes
  | 0, _, _, _, _ => .div
  | fuel + 1, .expr e, scope, ctx, s =>
    match e.kind with
    | .void => .err .void s
    | .ident sym =>
      match Scope.lookup s scope sym with
      | some v => .ok (.value v) s
      | none => .err .unbound s
    | .ctxIdent sym =>
      match Scope.lookup s ctx sym with
      | some v => .ok (.value v) s
      | none => .err .unbound s
    | .sym v => .ok (.value (.sym v)) s
    | .str v => .ok (.value (.str v)) s
    | .int v => .ok (.value (.int v)) s
    | .float v => .ok (.value (.float v)) s
    | .bool v => .ok (.value (.bool v)) s
    | .tuple t =>
      bindE (extractE EvalRes.asTuple (evalGo fuel (.entries t.entries .new) scope ctx s))
        fun result s1 =>
        .ok (.value (.tuple result)) s1
    | .list items =>
      bindE (extractE EvalRes.asValues (evalGo fuel (.items items []) scope ctx s))
        fun vs s1 =>
        .ok (.value (.list vs)) s1
    | .unOp op sub =>
      match op with
      | .neg =>
        bindE (extractE EvalRes.asValue (evalGo fuel (.expr sub) scope ctx s))
          fun v s1 =>
          match v with
          | .int a => .ok (.value (.int (wrap64 (-a)))) s1
          | .float a => .ok (.value (.float (fNeg a))) s1
          | _ => .err .types s1
      | .bitNot =>
        bindE (extractE EvalRes.asValue (evalGo fuel (.expr sub) scope ctx s))
          fun v s1 =>
          match v with
          | .int a => .ok (.value (.int (-a - 1))) s1
          | _ => .err .types s1
      | .not => .panic
    | .binOp op l r =>
      match op with
      | .dot =>
        bindE (extractE EvalRes.asValue (evalGo fuel (.expr l) scope ctx s))
          fun lv s1 =>
          match lv, r.kind with
          | .tuple t, .ident key =>
            match t.getKey key with
            | some v => .ok (.value v) s1
            | none => .err .keyNotFound s1
          | .tuple t, .int i =>
            if i < 0 then .err .keyNotFound s1
            else
              match t.getPos i.toNat with
              | some v => .ok (.value v) s1
              | none => .err .keyNotFound s1
          | _, _ => .err .types s1
      | .add =>
        bindE (extractE EvalRes.asValue (evalGo fuel (.expr l) scope ctx s))
          fun a s1 =>
          bindE (extractE EvalRes.asValue (evalGo fuel (.expr r) scope ctx s1))
            fun b s2 =>
            match a, b with
            | .int a, .int b => .ok (.value (.int (wrap64 (a + b)))) s2
            | .float a, .float b => .ok (.value (.float (fArith a b))) s2
            | _, _ => .err .types s2
      | .sub =>
        bindE (extractE EvalRes.asValue (evalGo fuel (.expr l) scope ctx s))
          fun a s1 =>
          bindE (extractE EvalRes.asValue (evalGo fuel (.expr r) scope ctx s1))
            fun b s2 =>
            match a, b with
            | .int a, .int b => .ok (.value (.int (wrap64 (a - b)))) s2
            | .float a, .float b => .ok (.value (.float (fArith a b))) s2
            | _, _ => .err .types s2
      | .mul =>
        bindE (extractE EvalRes.asValue (evalGo fuel (.expr l) scope ctx s))
          fun a s1 =>
          bindE (extractE EvalRes.asValue (evalGo fuel (.expr r) scope ctx s1))
            fun b s2 =>
            match a, b with
            | .int a, .int b => .ok (.value (.int (wrap64 (a * b)))) s2
            | .float a, .float b => .ok (.value (.float (fArith a b))) s2
            | _, _ => .err .types s2
      | .div =>
        bindE (extractE EvalRes.asValue (evalGo fuel (.expr l) scope ctx s))
          fun a s1 =>
          bindE (extractE EvalRes.asValue (evalGo fuel (.expr r) scope ctx s1))
            fun b s2 =>
            match a, b with
            | .int a, .int b =>
              if b = 0 ∨ (a = i64Min ∧ b = -1) then .panic
              else .ok (.value (.int (Int.tdiv a b))) s2
            | .float a, .float b => .ok (.value (.float (fArith a b))) s2
            | _, _ => .err .types s2
      | .mod =>
        bindE (extractE EvalRes.asValue (evalGo fuel (.expr l) scope ctx s))
          fun a s1 =>
          bindE (extractE EvalRes.asValue (evalGo fuel (.expr r) scope ctx s1))
            fun b s2 =>
            match a, b with
            | .int a, .int b =>
              if b = 0 ∨ (a = i64Min ∧ b = -1) then .panic
              else .ok (.value (.int (Int.tmod a b))) s2
            | _, _ => .err .types s2
      | .exp =>
        bindE (extractE EvalRes.asValue (evalGo fuel (.expr l) scope ctx s))
          fun a s1 =>
          bindE (extractE EvalRes.asValue (evalGo fuel (.expr r) scope ctx s1))
            fun b s2 =>
            match a, b with
            | .int a, .int b =>
              if b < 0 ∨ 4294967295 < b then .panic
              else .ok (.value (.int (wrap64 (a ^ b.toNat)))) s2
            | .float a, .float b => .ok (.value (.float (fArith a b))) s2
            | _, _ => .err .types s2
      | .eq =>
        bindE (extractE EvalRes.asValue (evalGo fuel (.expr l) scope ctx s))
          fun a s1 =>
          bindE (extractE EvalRes.asValue (evalGo fuel (.expr r) scope ctx s1))
            fun b s2 =>
            match a, b with
            | .bool a, .bool b => .ok (.value (.bool (a == b))) s2
            | .sym a, .sym b => .ok (.value (.bool (a == b))) s2
            | .str a, .str b => .ok (.value (.bool (a == b))) s2
            | .int a, .int b => .ok (.value (.bool (a == b))) s2
            | .float a, .float b => .ok (.value (.bool (fBeq a b))) s2
            | .tuple a, .tuple b =>
              .ok (.value (.bool (a.keys == b.keys &&
                beqValueList fuel s2 a.data b.data))) s2
            | .list a, .list b =>
              .ok (.value (.bool (beqValueList fuel s2 a b))) s2
            | _, _ => .err .types s2
      | .notEq =>
        bindE (extractE EvalRes.asValue (evalGo fuel (.expr l) scope ctx s))
          fun a s1 =>
          bindE (extractE EvalRes.asValue (evalGo fuel (.expr r) scope ctx s1))
            fun b s2 =>
            match a, b with
            | .bool a, .bool b => .ok (.value (.bool (a != b))) s2
            | .sym a, .sym b => .ok (.value (.bool (a != b))) s2
            | .str a, .str b => .ok (.value (.bool (a != b))) s2
            | .int a, .int b => .ok (.value (.bool (a != b))) s2
            | .float a, .float b => .ok (.value (.bool (!fBeq a b))) s2
            | .tuple a, .tuple b =>
              .ok (.value (.bool (!(a.keys == b.keys &&
                beqValueList fuel s2 a.data b.data)))) s2
            | .list a, .list b =>
              .ok (.value (.bool (!beqValueList fuel s2 a b))) s2
            | _, _ => .err .types s2
      | .lt =>
        bindE (extractE EvalRes.asValue (evalGo fuel (.expr l) scope ctx s))
          fun a s1 =>
          bindE (extractE EvalRes.asValue (evalGo fuel (.expr r) scope ctx s1))
            fun b s2 =>
            match a, b with
            | .str a, .str b => .ok (.value (.bool (listLtNat a b))) s2
            | .int a, .int b => .ok (.value (.bool (decide (a < b)))) s2
            | .float a, .float b => .ok (.value (.bool (fLt a b))) s2
            | _, _ => .err .types s2
      | .ltEq =>
        bindE (extractE EvalRes.asValue (evalGo fuel (.expr l) scope ctx s))
          fun a s1 =>
          bindE (extractE EvalRes.asValue (evalGo fuel (.expr r) scope ctx s1))
            fun b s2 =>
            match a, b with
            | .str a, .str b => .ok (.value (.bool (listLeNat a b))) s2
            | .int a, .int b => .ok (.value (.bool (decide (a ≤ b)))) s2
            | .float a, .float b => .ok (.value (.bool (fLe a b))) s2
            | _, _ => .err .types s2
      | .gt =>
        bindE (extractE EvalRes.asValue (evalGo fuel (.expr l) scope ctx s))
          fun a s1 =>
          bindE (extractE EvalRes.asValue (evalGo fuel (.expr r) scope ctx s1))
            fun b s2 =>
            match a, b with
            | .str a, .str b => .ok (.value (.bool (listLtNat b a))) s2
            | .int a, .int b => .ok (.value (.bool (decide (b < a)))) s2
            | .float a, .float b => .ok (.value (.bool (fLt b a))) s2
            | _, _ => .err .types s2
      | .gtEq =>
        bindE (extractE EvalRes.asValue (evalGo fuel (.expr l) scope ctx s))
          fun a s1 =>
          bindE (extractE EvalRes.asValue (evalGo fuel (.expr r) scope ctx s1))
            fun b s2 =>
            match a, b with
            | .str a, .str b => .ok (.value (.bool (listLeNat b a))) s2
            | .int a, .int b => .ok (.value (.bool (decide (b ≤ a)))) s2
            | .float a, .float b => .ok (.value (.bool (fLe b a))) s2
            | _, _ => .err .types s2
      | .and =>
        bindE (extractE EvalRes.asValue (evalGo fuel (.expr l) scope ctx s))
          fun a s1 =>
          match a with
          | .bool true =>
            bindE (extractE EvalRes.asValue (evalGo fuel (.expr r) scope ctx s1))
              fun b s2 =>
              match b with
              | .bool value => .ok (.value (.bool value)) s2
              | _ => .err .types s2
          | .bool false => .ok (.value (.bool false)) s1
          | _ => .err .types s1
      | .or =>
        bindE (extractE EvalRes.asValue (evalGo fuel (.expr l) scope ctx s))
          fun a s1 =>
          match a with
          | .bool true => .ok (.value (.bool true)) s1
          | .bool false =>
            bindE (extractE EvalRes.asValue (evalGo fuel (.expr r) scope ctx s1))
              fun b s2 =>
              match b with
              | .bool value => .ok (.value (.bool value)) s2
              | _ => .err .types s2
          | _ => .err .types s1
      | _ => .err .types s
    | .block stmts =>
      let r := alloc s ⟨some scope, .new⟩
      evalGo fuel (.blockStmts stmts) r.1 ctx r.2
    | .ifElse cond thenE elseE =>
      bindE (extractE EvalRes.asValue (evalGo fuel (.expr cond) scope ctx s))
        fun v s1 =>
        match v with
        | .bool true => evalGo fuel (.expr thenE) scope ctx s1
        | .bool false => evalGo fuel (.expr elseE) scope ctx s1
        | _ => .err .types s1
    | .fn params body => .ok (.value (.fn params body scope)) s
    | .call f args =>
      bindE (extractE EvalRes.asValue (evalGo fuel (.expr f) scope ctx s))
        fun fv s1 =>
        match fv with
        | .fn params body fnScope =>
          bindE (extractE EvalRes.asTuple
              (evalGo fuel (.entries args.entries .new) scope ctx s1))
            fun evaluatedArgs s2 =>
            match bindGo fuel (.entries params.entries evaluatedArgs 0)
                ⟨some fnScope, .new⟩ (getScope s2 ctx) with
            | .div => .div
            | .panic => .panic
            | .err e _ ctx1 => .err e (setScope s2 ctx ctx1)
            | .ok callScope ctx1 =>
              let s3 := setScope s2 ctx ctx1
              let r := alloc s3 callScope
              evalGo fuel (.expr body) r.1 ctx r.2
        | _ => .err .types s1
  | _ + 1, .entries [] acc, _, _, s => .ok (.tuple acc) s
  | fuel + 1, .entries (e :: rest) acc, scope, ctx, s =>
    match e with
    | .pos ex =>
      bindE (extractE EvalRes.asValue (evalGo fuel (.expr ex) scope ctx s))
        fun v s1 =>
        evalGo fuel (.entries rest (acc.push v)) scope ctx s1
    | .named k ex =>
      bindE (extractE EvalRes.asValue (evalGo fuel (.expr ex) scope ctx s))
        fun v s1 =>
        evalGo fuel (.entries rest (acc.insert k v)) scope ctx s1
  | _ + 1, .items [] acc, _, _, s => .ok (.values acc.reverse) s
  | fuel + 1, .items (e :: rest) acc, scope, ctx, s =>
    bindE (extractE EvalRes.asValue (evalGo fuel (.expr e) scope ctx s))
      fun v s1 =>
      evalGo fuel (.items rest (v :: acc)) scope ctx s1
  | _ + 1, .blockStmts [], _, _, s => .err .void s
  | fuel + 1, .blockStmts (st :: rest), scope, ctx, s =>
    bindE (extractE EvalRes.asOptValue (evalGo fuel (.stmt st) scope ctx s))
      fun ov s1 =>
      match ov with
      | some v => .ok (.value v) s1
      | none => evalGo fuel (.blockStmts rest) scope ctx s1
  | fuel + 1, .stmt st, scope, ctx, s =>
    match st with
    | .letS pat e =>
      bindE (extractE EvalRes.asValue (evalGo fuel (.expr e) scope ctx s))
        fun v s1 =>
        if scope = ctx then .panic
        else
          match bindGo fuel (.pat pat v) (getScope s1 scope) (getScope s1 ctx) with
          | .div => .div
          | .panic => .panic
          | .err er scope1 ctx1 =>
            .err er (setScope (setScope s1 scope scope1) ctx ctx1)
          | .ok scope1 ctx1 =>
            .ok (.optValue none) (setScope (setScope s1 scope scope1) ctx ctx1)
    | .expr e =>
      bindE (extractE EvalRes.asValue (evalGo fuel (.expr e) scope ctx s))
        fun v s1 =>
        .ok (.optValue (some v)) s1

/-- `vamp_eval::eval_expr`. -/
def eval_expr (fuel : Nat) (e : Expr) (scope ctx : Nat) (s : Store) :
    EOut Value :=
  extractE EvalRes.asValue (evalGo fuel (.expr e) scope ctx s)

/-- `vamp_eval::eval_stmt`. -/
def eval_stmt (fuel : Nat) (st : Stmt) (scope ctx : Nat) (s : Store) :
    EOut (Option Value) :=
  extractE EvalRes.asOptValue (evalGo fuel (.stmt st) scope ctx s)

/-- A module runtime record (`vamp_eval::value::Mod`; named `ModVal` to
avoid clashing with the AST `Mod`): dependencies plus a scope handle. -/
structure ModVal where
  deps : List Dep
  scope : Nat

/-- The statement loop of `eval_module`. -/
def evalStmtsSeq : Nat → List Stmt → Nat → Nat → Store → EOut Unit
  | _, [], _, _, s => .ok () s
  | fuel, st :: rest, scope, ctx, s =>
    bindE (eval_stmt fuel st scope ctx s) fun _ s1 =>
      evalStmtsSeq fuel rest scope ctx s1

/-- `vamp_eval::eval_module`: build the `Mod` record first — cloning the
deps and allocating its scope with `Default::default()` — then evaluate
every statement of `defs` with the *caller-supplied* scope handles, and
return the record. -/
def eval_module (fuel : Nat) (m : ModAst) (scope ctx : Nat) (s : Store) :
    EOut ModVal :=
  let r := alloc s ⟨none, .new⟩
  bindE (evalStmtsSeq fuel m.defs scope ctx r.2) fun _ s1 =>
    .ok ⟨m.deps, r.1⟩ s1

/-! ## Statement helpers: projections and specification predicates -/

/-- The parsed value of a successful parse. -/
def POut.valueOf {α : Type} : POut α → Option α
  | .ok a _ => some a
  | _ => none

/-- The error kind of a failed parse. -/
def POut.errKindOf {α : Type} : POut α → Option ErrorKind
  | .err e => some e.kind
  | _ => none

/-- The value of a successful evaluation. -/
def EOut.valueOf {α : Type} : EOut α → Option α
  | .ok a _ => some a
  | _ => none

/-- The error of a failed evaluation. -/
def EOut.errOf {α : Type} : EOut α → Option EvalError
  | .err e _ => some e
  | _ => none

/-- The positional region of a tuple's data vector. -/
def Tuple.positional {α : Type} (t : Tuple α) : List α :=
  t.data.take t.namedOffset

/-- The named region of a tuple's data vector (values in sorted-key
order). -/
def Tuple.namedValues {α : Type} (t : Tuple α) : List α :=
  t.data.drop t.namedOffset

/-- Whether the byte 10 occurs in the source at a position in `[a, b)`,
read with the lexer's out-of-range default. -/
def newlineIn (src : List Nat) (a b : Nat) : Bool :=
  (List.range' a (b - a)).any fun p => src.getD p 0 == 10

/-- A synthetic auto-inserted comma: `Comma` kind with a zero-width span
(every scanner-produced token spans at least one byte). -/
def isSyntheticComma (t : Token) : Bool :=
  t.kind == .comma && t.span.stop == t.span.start

/-- The specification of auto-comma positions in a token stream, position
`i` measured in the output: the token at `i` is a synthetic comma exactly
when, with `prev` the token at `i - 1`,
either a newline occurs between `prev`'s end and the token's position and
`prev` is a statement-closer, or no newline occurs there but a newline
occurs *inside `prev`'s own span* (possible only for string and symbol
literals) and the token before `prev` is a statement-closer. -/
def autoCommaAt (src : List Nat) (ts : List Token) : Nat → Bool
  | 0 => false
  | j + 1 =>
    match ts.get? j, ts.get? (j + 1) with
    | some prev, some cur =>
      if newlineIn src prev.span.stop cur.span.start then
        isCloser (some prev.kind)
      else if newlineIn src prev.span.start prev.span.stop then
        match j with
        | 0 => false
        | jj + 1 => isCloser ((ts.get? jj).map Token.kind)
      else false
    | _, _ => false

/-- The pending-comma flag after consuming source positions `[a, b)` with a
fixed last-emitted token kind: each consumed newline overwrites the flag
with `isCloser last`. -/
def flagStep (src : List Nat) (last : Option TokenKind) (flag : Bool)
    (a b : Nat) : Bool :=
  if newlineIn src a b then isCloser last else flag

/-- How any lexer scanning step evolves the state: the source, the last
token kind and the span start are untouched, the cursor moves forward, and
the pending-comma flag is rewritten by the newlines among the consumed
bytes. -/
def Advances (st st' : LexSt) : Prop :=
  st'.source = st.source ∧ st'.lastTokenKind = st.lastTokenKind ∧
  st'.span.start = st.span.start ∧ st.span.stop ≤ st'.span.stop ∧
  st'.autoInsertComma =
    flagStep st.source st.lastTokenKind st.autoInsertComma
      st.span.stop st'.span.stop

/-- Specification of one scanner function started at `st` (whose span start
has been reset to the cursor): on success the token covers exactly the
consumed bytes, is at least one byte wide, becomes the last token kind, and
the flag is rewritten by the consumed newlines. Errors abort tokenization,
so no property is needed for them. -/
def ScanSpec (out : ScanOut) (st : LexSt) : Prop :=
  match out with
  | .div => True
  | .decline st' => st' = st
  | .tok t st' =>
    st'.source = st.source ∧ st'.span.start = st.span.start ∧
    t.span = ⟨st.span.start, st'.span.stop⟩ ∧
    st.span.stop < st'.span.stop ∧
    st'.lastTokenKind = some t.kind ∧
    st'.autoInsertComma =
      flagStep st.source st.lastTokenKind st.autoInsertComma
        st.span.stop st'.span.stop
  | .fail _ _ => True

/-- Specification of `nextToken`: an emitted token is either the synthetic
comma — zero-width, emitted exactly when the flag (as rewritten by the
skipped whitespace) is set, clearing it — or a scanner token, at least one
byte wide, emitted with the rewritten flag clear, leaving the flag set by
the newlines inside the token's own span (`prev` kind fixed). -/
def NextSpec (st0 : LexSt) : Prop :=
  match nextToken st0 with
  | .tok t st' =>
    st'.source = st0.source ∧ st'.lastTokenKind = some t.kind ∧
    st0.span.stop ≤ t.span.start ∧ st'.span.start = t.span.start ∧
    st'.span.stop = t.span.stop ∧
    ((t.kind = .comma ∧ t.span.stop = t.span.start ∧
      st'.autoInsertComma = false ∧
      flagStep st0.source st0.lastTokenKind st0.autoInsertComma
        st0.span.stop t.span.start = true)
     ∨ (t.span.start < t.span.stop ∧
        flagStep st0.source st0.lastTokenKind st0.autoInsertComma
          st0.span.stop t.span.start = false ∧
        st'.autoInsertComma =
          flagStep st0.source st0.lastTokenKind false
            t.span.start t.span.stop))
  | _ => True

/-- The loop invariant of `tokenize` between two calls to `next`, with `ts`
the tokens emitted so far: the cursor sits at the end of the last emitted
token, whose kind is recorded, and the pending flag is exactly determined
by the newlines inside the last token's span and the kind of the token
before it. -/
def LexInv (src : List Nat) (ts : List Token) (st : LexSt) : Prop :=
  st.source = src ∧
  ((ts = [] ∧ st.lastTokenKind = none ∧ st.autoInsertComma = false) ∨
   (∃ prev, ts.getLast? = some prev ∧
     st.lastTokenKind = some prev.kind ∧
     st.span.stop = prev.span.stop ∧
     st.autoInsertComma =
       (if newlineIn src prev.span.start prev.span.stop then
         isCloser ((ts.dropLast.getLast?).map Token.kind)
        else false)))

/-- Every position of the token stream satisfies the auto-comma
specification. -/
def StreamOK (src : List Nat) (ts : List Token) : Prop :=
  ∀ i t, ts.get? i = some t →
    (isSyntheticComma t = true ↔ autoCommaAt src ts i = true)

/-- Binary-operator tree shape of an expression, fueled: leaves are the
boolean atoms used by the precedence statements, everything that is not a
binary operation or boolean literal collapses to `other`. -/
inductive OpTree where
  | atom (b : Bool)
  | node (op : BinOp) (l r : OpTree)
  | other
deriving DecidableEq, Repr

def opShape : Nat → Expr → OpTree
  | 0, _ => .other
  | _ + 1, .mk _ (.bool b) => .atom b
  | fuel + 1, .mk _ (.binOp op l r) =>
    .node op (opShape fuel l) (opShape fuel r)
  | _ + 1, _ => .other

/-- A token with an irrelevant span (the parser reads the source only for
identifier and literal lexemes, and the precedence statements use only
`true`/`false` atoms). -/
def mkTok (k : TokenKind) : Token := ⟨k, ⟨0, 0⟩⟩

/-- Run `Parser::expr` on the token sequence `true k1 false k2 true`. -/
def parseBin (k1 k2 : TokenKind) : POut (Option Expr) :=
  let toks := [mkTok .trueK, mkTok k1, mkTok .falseK, mkTok k2, mkTok .trueK]
  exprP (parserFuel toks) ⟨[], toks, 0, []⟩

/-- Operator-tree shape of a parse result. -/
def shapeOf (o : POut (Option Expr)) : Option OpTree :=
  match o with
  | .ok (some e) _ => some (opShape 8 e)
  | _ => none

/-- The binary-operator token kinds listed in `accept_bin_op`. -/
def allBinOps : List TokenKind :=
  [.orOr, .andAnd, .eqEq, .notEq, .lt, .ltEq, .gt, .gtEq, .or, .caret,
   .and, .ltLt, .gtGt, .plus, .minus, .star, .slash, .percent, .starStar,
   .period]

/-- Left binding power of an operator token. -/
def bpOf (k : TokenKind) : Nat := ((binOpBp k).map fun r => r.2.1).getD 0

/-- The `BinOp` of an operator token. -/
def opOf (k : TokenKind) : BinOp := ((binOpBp k).map fun r => r.1).getD .add

/-- The source of the spec's closure scenario
`{ let f = { let x = 1, |y| x + y }, f(2) }`. -/
def closureSrc : List Nat :=
  strBytes "\x7b let f = \x7b let x = 1, |y| x + y \x7d, f(2) \x7d"

/-- A two-scope store: handle 0 the lexical scope, handle 1 the context
scope. -/
def store2 : Store := [⟨none, .new⟩, ⟨none, .new⟩]

/-- A one-definition module `let x = 1` (symbol 0 playing `x`). -/
def moduleDemo : ModAst := ⟨[], [.letS (.ident 0) (Expr.unknown (.int 1))]⟩

/-- Number of positional entries in an entry list: the amount by which
`bind_tuple`'s positional counter advances across it. -/
def posCountE (es : List (TupleEntry Pat)) : Nat :=
  es.countP fun e =>
    match e with
    | .pos _ => true
    | _ => false

/-- The statement `let (x, 5) = (1, 2)` (symbol 0 playing `x`), built
directly since the parser does not yet produce literal patterns. -/
def letDemo : Stmt :=
  .letS (.tuple (Tuple.fromEntries [.pos (.ident 0), .pos (.int 5)]))
    (Expr.unknown (.tuple (Tuple.fromEntries
      [.pos (Expr.unknown (.int 1)), .pos (Expr.unknown (.int 2))])))

/-- Key-set monotonicity across a binding outcome: every key already
present in the lexical (resp. context) frame is still present in the frame
the outcome carries, for both `ok` and `err` outcomes. -/
def KeysMono (sc ctx : Scope) : BOut → Prop
  | .ok sc' ctx' =>
    (∀ k, k ∈ sc.bindings.keys → k ∈ sc'.bindings.keys) ∧
    (∀ k, k ∈ ctx.bindings.keys → k ∈ ctx'.bindings.keys)
  | .err _ sc' ctx' =>
    (∀ k, k ∈ sc.bindings.keys → k ∈ sc'.bindings.keys) ∧
    (∀ k, k ∈ ctx.bindings.keys → k ∈ ctx'.bindings.keys)
  | _ => True

/-! ## Theorems -/

/-- Claim C5 (code bug): the claim states that `a op b` on two `Int`
values always terminates with an `Int` value or a runtime `Error`, the sole
exception being division or remainder by zero — explicitly covering `**`
with a negative exponent. The code instead panics there: `BinOp::Exp`
converts the exponent with `b.try_into().unwrap()`, and the `i64 → u32`
conversion fails on a negative exponent. Evaluating the failing input
`2 ** -1` yields the panic outcome. -/
theorem c5_int_exp_negative_panics :
    eval_expr 5 (.mk .unknown (.binOp .exp (.mk .unknown (.int 2))
      (.mk .unknown (.int (-1))))) 0 1 store2 = .panic := by
  rfl

/-- Claim C1 (amended): `eval_module` evaluates the `Let` statements of
`defs` in the caller-supplied scope, and the `Mod` record it returns
preserves `deps` but carries a freshly allocated scope handle — the handle
created by `Default::default()` at the record's construction, distinct
from the evaluation scope — rather than a scope containing the bindings. -/
theorem c1_eval_module_scope (fuel : Nat) (m : ModAst) (σ κ : Nat)
    (s : Store) (mod : ModVal) (s' : Store)
    (h : eval_module fuel m σ κ s = .ok mod s') (hσ : σ < s.length) :
    mod.deps = m.deps ∧ mod.scope = s.length ∧ mod.scope ≠ σ := by
  simp only [eval_module, alloc] at h
  cases hseq : evalStmtsSeq fuel m.defs σ κ (s ++ [⟨none, Tuple.new⟩]) with
  | ok a s1 =>
    rw [hseq] at h
    simp only [bindE] at h
    cases h
    refine ⟨rfl, rfl, ?_⟩
    show s.length ≠ σ
    omega
  | div => rw [hseq] at h; simp [bindE] at h
  | panic => rw [hseq] at h; simp [bindE] at h
  | err e s1 => rw [hseq] at h; simp [bindE] at h

/-- Witness for C1: the amended claim instantiated on the one-definition
module `let x = 1` evaluated in a two-scope store. -/
theorem c1_eval_module_scope_witness :
    (ModVal.mk [] 2).deps = moduleDemo.deps ∧
    (ModVal.mk [] 2).scope = store2.length ∧ (ModVal.mk [] 2).scope ≠ 0 :=
  c1_eval_module_scope 10 moduleDemo 0 1 store2 (ModVal.mk [] 2)
    [⟨none, ⟨[0], [.int 1]⟩⟩, ⟨none, .new⟩, ⟨none, .new⟩] (by rfl) (by decide)

/-- Counterexample for C1 as stated: evaluating the module `let x = 1`
returns a `Mod` whose scope (handle 2) contains no binding at all — the
binding of `x` (symbol 0) lands in the caller-supplied scope (handle 0)
instead, so the returned record does not preserve the scope the statements
were evaluated in. -/
theorem c1_eval_module_scope_counterexample :
    eval_module 10 moduleDemo 0 1 store2 =
      .ok ⟨[], 2⟩ [⟨none, ⟨[0], [.int 1]⟩⟩, ⟨none, .new⟩, ⟨none, .new⟩] ∧
    (getScope [⟨none, ⟨[0], [.int 1]⟩⟩, ⟨none, .new⟩, ⟨none, .new⟩]
      2).bindings.getKey 0 = none ∧
    (getScope [⟨none, ⟨[0], [.int 1]⟩⟩, ⟨none, .new⟩, ⟨none, .new⟩]
      0).bindings.getKey 0 = some (.int 1) :=
  ⟨by rfl, by rfl, by rfl⟩

/-- Claim C4 (amended): whenever the statements parsed at module level
contain a bare expression statement, `Parser::defs` fails — but with the
error kind `InvalidToken` produced by `invalid_token()`, not with
`NoUnboundExprAtModuleLevel` (that variant exists in `ErrorKind` and is
never constructed). -/
theorem c4_defs_rejects_bare_expr (fuel : Nat) (p p1 : Parser)
    (ss : List Stmt) (h : stmtsP fuel p = .ok ss p1)
    (hb : ss.any isExprStmt = true) :
    defsP fuel p = .err (invalidToken p1) ∧
      (invalidToken p1).kind = .invalidToken := by
  refine ⟨?_, rfl⟩
  unfold defsP
  rw [h]
  show (if ss.any isExprStmt = true then POut.err (invalidToken p1)
    else POut.ok ss p1) = POut.err (invalidToken p1)
  rw [if_pos hb]

/-- Witness for C4: the amended claim instantiated on the module source
`"1"`, whose statement list is the single bare expression `1`. -/
theorem c4_defs_rejects_bare_expr_witness :
    defsP (parserFuel [⟨.int, ⟨0, 1⟩⟩])
        ⟨strBytes "1", [⟨.int, ⟨0, 1⟩⟩], 0, []⟩ =
      .err (invalidToken ⟨strBytes "1", [⟨.int, ⟨0, 1⟩⟩], 1, []⟩) ∧
    (invalidToken ⟨strBytes "1", [⟨.int, ⟨0, 1⟩⟩], 1, []⟩).kind =
      .invalidToken :=
  c4_defs_rejects_bare_expr (parserFuel [⟨.int, ⟨0, 1⟩⟩])
    ⟨strBytes "1", [⟨.int, ⟨0, 1⟩⟩], 0, []⟩
    ⟨strBytes "1", [⟨.int, ⟨0, 1⟩⟩], 1, []⟩
    [.expr (Expr.unknown (.int 1))] (by rfl) (by rfl)

/-- Counterexample for C4 as stated: `parse_module "1"` fails with kind
`InvalidToken`, which is not the claimed `NoUnboundExprAtModuleLevel`. -/
theorem c4_defs_rejects_bare_expr_counterexample :
    parse_module (strBytes "1") [] = .err ⟨.invalidToken, none, ⟨0, 1⟩⟩ ∧
    ErrorKind.invalidToken ≠ ErrorKind.noUnboundExprAtModuleLevel :=
  ⟨by rfl, by decide⟩

set_option maxHeartbeats 2000000 in
/-- Claim C6 (amended): with `bp` the left binding power of
`accept_bin_op`, for all listed operators `o₁, o₂` with `bp o₁ < bp o₂`
the expression `a o₁ b o₂ c` parses as `a o₁ (b o₂ c)`; and when the same
operator appears twice, parsing is left-associative for **every** listed
operator — including `**` and `.`, whose right binding power exceeds their
left binding power by one, which in this precedence-climbing loop yields
left association, not the right association the claim states. -/
theorem c6_precedence_and_associativity :
    (∀ k1 ∈ allBinOps, ∀ k2 ∈ allBinOps, bpOf k1 < bpOf k2 →
      shapeOf (parseBin k1 k2) =
        some (.node (opOf k1) (.atom true)
          (.node (opOf k2) (.atom false) (.atom true)))) ∧
    (∀ k ∈ allBinOps, shapeOf (parseBin k k) =
      some (.node (opOf k) (.node (opOf k) (.atom true) (.atom false))
        (.atom true))) ∧
    (∀ k ∈ allBinOps, (binOpBp k).isSome = true) := by
  decide

/-- Witness for C6: `true + false * true` parses with the multiplication
bound tighter. -/
theorem c6_precedence_and_associativity_witness :
    shapeOf (parseBin .plus .star) =
      some (.node .add (.atom true)
        (.node .mul (.atom false) (.atom true))) :=
  c6_precedence_and_associativity.1 .plus (by decide) .star (by decide)
    (by decide)

/-- Counterexample for C6 as stated: `a ** b ** c` parses
left-associatively, not right-associatively as the claim says. -/
theorem c6_precedence_and_associativity_counterexample :
    shapeOf (parseBin .starStar .starStar) =
      some (.node .exp (.node .exp (.atom true) (.atom false))
        (.atom true)) ∧
    shapeOf (parseBin .starStar .starStar) ≠
      some (.node .exp (.atom true)
        (.node .exp (.atom false) (.atom true))) := by
  exact ⟨by rfl, by decide⟩

set_option maxRecDepth 10000 in
/-- Claim C7 (confirmed): a function literal captures the current lexical
scope handle — and not the context scope, which is not part of the value —
and the spec's closure scenario `{ let f = { let x = 1, |y| x + y }, f(2) }`
evaluates to `Int(3)`: the call binds `y` in a fresh scope whose parent is
the captured block scope, where `x` is found. -/
theorem c7_closure_capture :
    (∀ (n : Nat) (params : Tuple Pat) (body : Expr) (ty : Ty) (σ κ : Nat)
      (s : Store),
      eval_expr (n + 1) (.mk ty (.fn params body)) σ κ s =
        .ok (.fn params body σ) s) ∧
    (match parse_expr closureSrc [] with
     | .ok e _ => eval_expr 50 e 0 1 store2
     | _ => .div).valueOf = some (.int 3) :=
  ⟨fun _ _ _ _ _ _ _ => rfl, by rfl⟩

/-- Claim C8 (confirmed): `true || e` and `false && e` evaluate to
`Bool(true)` and `Bool(false)` with the store unchanged, for *every*
right-hand expression `e` — so `e` is never evaluated, even if it would
fail — and a non-`Bool` left operand of `&&` or `||` yields the `Types`
error. -/
theorem c8_short_circuit :
    (∀ (n : Nat) (e : Expr) (ty ty2 : Ty) (σ κ : Nat) (s : Store),
      eval_expr (n + 2) (.mk ty (.binOp .or (.mk ty2 (.bool true)) e)) σ κ s =
        .ok (.bool true) s ∧
      eval_expr (n + 2) (.mk ty (.binOp .and (.mk ty2 (.bool false)) e)) σ κ s =
        .ok (.bool false) s) ∧
    (∀ (n : Nat) (l r : Expr) (ty : Ty) (σ κ : Nat) (s s1 : Store) (v : Value),
      eval_expr n l σ κ s = .ok v s1 → (∀ b, v ≠ .bool b) →
      eval_expr (n + 1) (.mk ty (.binOp .and l r)) σ κ s = .err .types s1 ∧
      eval_expr (n + 1) (.mk ty (.binOp .or l r)) σ κ s = .err .types s1) := by
  constructor
  · exact fun n e ty ty2 σ κ s => ⟨rfl, rfl⟩
  · intro n l r ty σ κ s s1 v h hv
    have hgo : evalGo n (.expr l) σ κ s = .ok (.value v) s1 := by
      unfold eval_expr at h
      revert h
      cases hm : evalGo n (.expr l) σ κ s with
      | ok res s2 =>
        cases res <;> simp [extractE, EvalRes.asValue]
      | div => simp [extractE]
      | panic => simp [extractE]
      | err e2 s2 => simp [extractE]
    constructor <;>
    · show extractE EvalRes.asValue _ = _
      simp only [evalGo, Expr.kind, hgo, extractE, EvalRes.asValue, bindE]
      cases v with
      | bool b => exact absurd rfl (hv b)
      | _ => rfl

/-- Helper: inverting `extractE EvalRes.asValue` on a successful result. -/
theorem extractE_asValue_ok {m : EOut EvalRes} {v : Value} {s1 : Store}
    (h : extractE EvalRes.asValue m = .ok v s1) : m = .ok (.value v) s1 := by
  revert h
  cases m with
  | ok res s2 =>
    cases res with
    | value v' =>
      intro h
      simp [extractE, EvalRes.asValue] at h
      simp [h.1, h.2]
    | tuple t => simp [extractE, EvalRes.asValue]
    | values vs => simp [extractE, EvalRes.asValue]
    | optValue ov => simp [extractE, EvalRes.asValue]
  | div => simp [extractE]
  | panic => simp [extractE]
  | err e2 s2 => simp [extractE]

/-- Claim C3 (amended): positional access `t.get(i)` indexes the *whole*
data vector: it returns the `i`-th entry of the positional region when
`i` is below the positional count, the `(i − posCount)`-th entry of the
named region (values in sorted-key order) when `posCount ≤ i < len`, and
no value only when `i ≥ len`; accordingly, dot lookup with an integer
index on a tuple value yields the data entry at that index and
`KeyNotFound` exactly when the index is negative or at least the total
length — not whenever it reaches past the positional region. -/
theorem c3_positional_access :
    (∀ (α : Type) (t : Tuple α) (i : Nat),
      (i < t.namedOffset → t.getPos i = t.positional.get? i) ∧
      (t.namedOffset ≤ i → i < t.len →
        t.getPos i = t.namedValues.get? (i - t.namedOffset)) ∧
      (t.len ≤ i → t.getPos i = none)) ∧
    (∀ (fuel : Nat) (l : Expr) (ty ty2 : Ty) (iv : Int) (keys : List Sym)
      (data : List Value) (σ κ : Nat) (s s1 : Store),
      eval_expr fuel l σ κ s = .ok (.tuple ⟨keys, data⟩) s1 →
      ((iv < 0 ∨ (data.length : Int) ≤ iv →
        eval_expr (fuel + 1)
            (.mk ty (.binOp .dot l (.mk ty2 (.int iv)))) σ κ s =
          .err .keyNotFound s1) ∧
       (∀ v, 0 ≤ iv → data.get? iv.toNat = some v →
        eval_expr (fuel + 1)
            (.mk ty (.binOp .dot l (.mk ty2 (.int iv)))) σ κ s =
          .ok v s1))) := by
  constructor
  · intro α t i
    refine ⟨fun h => ?_, fun h1 h2 => ?_, fun h => ?_⟩
    · unfold Tuple.getPos Tuple.positional
      rw [List.get?_take h]
    · unfold Tuple.getPos Tuple.namedValues
      rw [List.get?_drop]
      congr 1
      omega
    · unfold Tuple.getPos
      exact List.get?_eq_none.mpr h
  · intro fuel l ty ty2 iv keys data σ κ s s1 h
    have hgo := extractE_asValue_ok h
    constructor
    · intro hout
      show extractE EvalRes.asValue _ = _
      simp only [evalGo, Expr.kind, hgo, extractE, EvalRes.asValue, bindE]
      rcases hout with hneg | hbig
      · rw [if_pos hneg]
      · have hnn : ¬iv < 0 := by omega
        rw [if_neg hnn]
        have : data.get? iv.toNat = none := by
          refine List.get?_eq_none.mpr ?_
          omega
        simp only [Tuple.getPos, this]
    · intro v h0 hget
      show extractE EvalRes.asValue _ = _
      simp only [evalGo, Expr.kind, hgo, extractE, EvalRes.asValue, bindE]
      rw [if_neg (by omega : ¬iv < 0)]
      simp only [Tuple.getPos, hget]

/-- Witness for C3: on the tuple value `(1, k: 2)` (key `k` interned at 5,
data vector `[1, 2]`), positional access below the positional count reads
the positional region, and dot lookup `.1` returns the data entry `2`. -/
theorem c3_positional_access_witness :
    (Tuple.mk [5] [Value.int 1, Value.int 2]).getPos 0 =
      (Tuple.mk [5] [Value.int 1, Value.int 2]).positional.get? 0 ∧
    eval_expr 5 (.mk .unknown (.binOp .dot
        (.mk .unknown (.tuple (Tuple.mk [5]
          [.mk .unknown (.int 1), .mk .unknown (.int 2)])))
        (.mk .unknown (.int 1)))) 0 1 store2 = .ok (.int 2) store2 :=
  ⟨(c3_positional_access.1 Value (Tuple.mk [5] [Value.int 1, Value.int 2])
      0).1 (by decide),
   (c3_positional_access.2 4
      (.mk .unknown (.tuple (Tuple.mk [5]
        [.mk .unknown (.int 1), .mk .unknown (.int 2)])))
      .unknown .unknown 1 [5] [Value.int 1, Value.int 2] 0 1 store2 store2
      (by rfl)).2 (.int 2) (by decide) (by rfl)⟩

/-- Counterexample for C3 as stated: the tuple value `(1, k: 2)` has one
positional entry, yet `get(1)` returns the *named* value `2` instead of no
value, and evaluating the dot lookup `(1, k: 2).1` returns `Int(2)`, not
the claimed `KeyNotFound`. -/
theorem c3_positional_access_counterexample :
    (Tuple.mk [5] [Value.int 1, Value.int 2]).namedOffset = 1 ∧
    (Tuple.mk [5] [Value.int 1, Value.int 2]).getPos 1 = some (.int 2) ∧
    eval_expr 5 (.mk .unknown (.binOp .dot
        (.mk .unknown (.tuple (Tuple.mk [5]
          [.mk .unknown (.int 1), .mk .unknown (.int 2)])))
        (.mk .unknown (.int 1)))) 0 1 store2 = .ok (.int 2) store2 ∧
    eval_expr 5 (.mk .unknown (.binOp .dot
        (.mk .unknown (.tuple (Tuple.mk [5]
          [.mk .unknown (.int 1), .mk .unknown (.int 2)])))
        (.mk .unknown (.int 1)))) 0 1 store2 ≠ .err .keyNotFound store2 :=
  ⟨by rfl, by rfl, by rfl, fun h => by
    rw [show eval_expr 5 (.mk .unknown (.binOp .dot
        (.mk .unknown (.tuple (Tuple.mk [5]
          [.mk .unknown (.int 1), .mk .unknown (.int 2)])))
        (.mk .unknown (.int 1)))) 0 1 store2 = .ok (.int 2) store2 from rfl]
      at h
    exact EOut.noConfusion h⟩

/-- Witness for C8: a non-`Bool` (integer) left operand of `&&` and `||`
yields the `Types` error. -/
theorem c8_short_circuit_witness :
    eval_expr 2 (.mk .unknown (.binOp .and (.mk .unknown (.int 0))
      (.mk .unknown (.bool true)))) 0 1 store2 = .err .types store2 ∧
    eval_expr 2 (.mk .unknown (.binOp .or (.mk .unknown (.int 0))
      (.mk .unknown (.bool true)))) 0 1 store2 = .err .types store2 :=
  c8_short_circuit.2 1 (.mk .unknown (.int 0)) (.mk .unknown (.bool true))
    .unknown 0 1 store2 store2 (.int 0) (by rfl)
    (by intro b h; exact Value.noConfusion h)

/-- Helper: the accumulated value never decreases and stays non-negative
when the radix is positive and the digits are non-negative. -/
theorem foldl_accum_ge (radix : Int) (digitOf : Nat → Int) :
    ∀ (ds : List Nat) (v : Int), 1 ≤ radix →
      (∀ d ∈ ds, 0 ≤ digitOf d) → 0 ≤ v →
      v ≤ ds.foldl (fun a d => a * radix + digitOf d) v ∧
      0 ≤ ds.foldl (fun a d => a * radix + digitOf d) v := by
  intro ds
  induction ds with
  | nil => intro v h1 hd h0; exact ⟨le_refl v, h0⟩
  | cons d ds ih =>
    intro v h1 hd h0
    have hd0 : 0 ≤ digitOf d := hd d (by simp)
    have hvr : 0 ≤ v * radix := mul_nonneg h0 (by omega)
    have hstep : v ≤ v * radix + digitOf d := by nlinarith
    have hnn : 0 ≤ v * radix + digitOf d := by omega
    have := ih (v * radix + digitOf d) h1 (fun x hx => hd x (by simp [hx])) hnn
    rw [List.foldl_cons]
    exact ⟨le_trans hstep this.1, this.2⟩

/-- Helper: `accumDigits` equals the unchecked fold when that fold stays
within the `i64` range, and `none` when it overflows. -/
theorem accumDigits_checked (radix : Int) (digitOf : Nat → Int) :
    ∀ (ds : List Nat) (v : Int), 2 ≤ radix →
      (∀ d ∈ ds, 0 ≤ digitOf d ∧ digitOf d < radix) →
      0 ≤ v → v ≤ i64Max →
      accumDigits radix digitOf ds v =
        (if ds.foldl (fun a d => a * radix + digitOf d) v ≤ i64Max then
          some (ds.foldl (fun a d => a * radix + digitOf d) v) else none) := by
  intro ds
  induction ds with
  | nil =>
    intro v h2 hd h0 hm
    simp [accumDigits, hm]
  | cons d ds ih =>
    intro v h2 hd h0 hm
    have hMin0 : i64Min ≤ (0 : Int) := by norm_num [i64Min]
    have hd0 : 0 ≤ digitOf d := (hd d (by simp)).1
    have hvr0 : 0 ≤ v * radix := mul_nonneg h0 (by omega)
    have hv10 : 0 ≤ v * radix + digitOf d := by omega
    have hdtail : ∀ x ∈ ds, 0 ≤ digitOf x ∧ digitOf x < radix :=
      fun x hx => hd x (by simp [hx])
    rw [List.foldl_cons]
    by_cases hA : v * radix ≤ i64Max
    · have hcm : checkedMul v radix = some (v * radix) := by
        simp only [checkedMul]
        exact if_pos ⟨le_trans hMin0 hvr0, hA⟩
      by_cases hB : v * radix + digitOf d ≤ i64Max
      · have hca : checkedAdd (v * radix) (digitOf d) =
            some (v * radix + digitOf d) := by
          simp only [checkedAdd]
          exact if_pos ⟨le_trans hMin0 hv10, hB⟩
        simp only [accumDigits, hcm, hca]
        exact ih (v * radix + digitOf d) h2 hdtail hv10 hB
      · have hca : checkedAdd (v * radix) (digitOf d) = none := by
          simp only [checkedAdd]
          exact if_neg (fun hc => hB hc.2)
        simp only [accumDigits, hcm, hca]
        have hge := foldl_accum_ge radix digitOf ds (v * radix + digitOf d)
          (by omega) (fun x hx => (hdtail x hx).1) hv10
        rw [if_neg (by omega)]
    · have hcm : checkedMul v radix = none := by
        simp only [checkedMul]
        exact if_neg (fun hc => hA hc.2)
      simp only [accumDigits, hcm]
      have hge := foldl_accum_ge radix digitOf ds (v * radix + digitOf d)
        (by omega) (fun x hx => (hd x (by simp [hx])).1) hv10
      rw [if_neg (by omega)]

/-- Claim C9: `Parser::int` decodes the token slice in the radix selected by
its `0b`/`0o`/`0x`/decimal prefix using overflow-checked accumulation,
returning the accumulated value exactly when it fits in `i64` and the
`IntInvalid` signal (`none`) exactly when it overflows; concretely,
`parse_expr "9223372036854775808"` fails with `IntInvalid` while
`parse_expr "9223372036854775807"` yields `Int(9223372036854775807)`. -/
theorem c9_int_literal_overflow :
    (∀ slice : List Nat, (∀ d ∈ slice, isDigit d = true) →
      intFromSlice slice =
        (if slice.foldl (fun a (d : Nat) => a * 10 + ((d : Int) - 48)) 0 ≤ i64Max then
          some (slice.foldl (fun a (d : Nat) => a * 10 + ((d : Int) - 48)) 0)
         else none)) ∧
    (∀ ds : List Nat, (∀ d ∈ ds, isBinDigit d = true) →
      intFromSlice (48 :: 98 :: ds) =
        (if ds.foldl (fun a (d : Nat) => a * 2 + ((d : Int) - 48)) 0 ≤ i64Max then
          some (ds.foldl (fun a (d : Nat) => a * 2 + ((d : Int) - 48)) 0)
         else none)) ∧
    (∀ ds : List Nat, (∀ d ∈ ds, isOctDigit d = true) →
      intFromSlice (48 :: 111 :: ds) =
        (if ds.foldl (fun a (d : Nat) => a * 8 + ((d : Int) - 48)) 0 ≤ i64Max then
          some (ds.foldl (fun a (d : Nat) => a * 8 + ((d : Int) - 48)) 0)
         else none)) ∧
    (∀ ds : List Nat, (∀ d ∈ ds, isHexDigit d = true) →
      intFromSlice (48 :: 120 :: ds) =
        (if ds.foldl (fun a (d : Nat) => a * 16 + hexDigitOf d) 0 ≤ i64Max then
          some (ds.foldl (fun a (d : Nat) => a * 16 + hexDigitOf d) 0)
         else none)) ∧
    (parse_expr (strBytes "9223372036854775808") []).errKindOf =
      some .intInvalid ∧
    (parse_expr (strBytes "9223372036854775807") []).valueOf =
      some (Expr.unknown (.int 9223372036854775807)) := by
  have hmax0 : (0 : Int) ≤ i64Max := by norm_num [i64Max]
  refine ⟨?_, ?_, ?_, ?_, by rfl, by rfl⟩
  · intro slice hds
    have h0b : slice.take 2 ≠ strBytes "0b" := by
      intro heq
      rcases slice with _ | ⟨a, _ | ⟨b, t⟩⟩ <;> simp [strBytes] at heq
      obtain ⟨h1, h2⟩ := heq
      subst h2
      exact absurd (hds 98 (by simp)) (by decide)
    have h0o : slice.take 2 ≠ strBytes "0o" := by
      intro heq
      rcases slice with _ | ⟨a, _ | ⟨b, t⟩⟩ <;> simp [strBytes] at heq
      obtain ⟨h1, h2⟩ := heq
      subst h2
      exact absurd (hds 111 (by simp)) (by decide)
    have h0x : slice.take 2 ≠ strBytes "0x" := by
      intro heq
      rcases slice with _ | ⟨a, _ | ⟨b, t⟩⟩ <;> simp [strBytes] at heq
      obtain ⟨h1, h2⟩ := heq
      subst h2
      exact absurd (hds 120 (by simp)) (by decide)
    unfold intFromSlice
    rw [if_neg h0b, if_neg h0o, if_neg h0x]
    refine accumDigits_checked 10 _ slice 0 (by norm_num) ?_ (le_refl 0) hmax0
    intro d hd
    have := hds d hd
    simp only [isDigit, Bool.and_eq_true, decide_eq_true_eq] at this
    omega
  · intro ds hds
    unfold intFromSlice
    rw [if_pos (by rfl)]
    refine accumDigits_checked 2 _ ds 0 (by norm_num) ?_ (le_refl 0) hmax0
    intro d hd
    have := hds d hd
    simp only [isBinDigit, Bool.or_eq_true, decide_eq_true_eq] at this
    omega
  · intro ds hds
    unfold intFromSlice
    rw [if_neg (show (48 :: 111 :: ds).take 2 ≠ strBytes "0b" by
          intro h; simp [strBytes] at h),
      if_pos (by rfl)]
    refine accumDigits_checked 8 _ ds 0 (by norm_num) ?_ (le_refl 0) hmax0
    intro d hd
    have := hds d hd
    simp only [isOctDigit, Bool.and_eq_true, decide_eq_true_eq] at this
    omega
  · intro ds hds
    unfold intFromSlice
    rw [if_neg (show (48 :: 120 :: ds).take 2 ≠ strBytes "0b" by
          intro h; simp [strBytes] at h),
      if_neg (show (48 :: 120 :: ds).take 2 ≠ strBytes "0o" by
          intro h; simp [strBytes] at h),
      if_pos (by rfl)]
    refine accumDigits_checked 16 _ ds 0 (by norm_num) ?_ (le_refl 0) hmax0
    intro d hd
    have hd' : ((48 ≤ d ∧ d ≤ 57) ∨ (65 ≤ d ∧ d ≤ 70)) ∨ (97 ≤ d ∧ d ≤ 102) := by
      simpa [isHexDigit, Bool.or_eq_true, Bool.and_eq_true,
        decide_eq_true_eq] using hds d hd
    unfold hexDigitOf
    split
    · rename_i hc
      simp only [Bool.and_eq_true, decide_eq_true_eq] at hc
      omega
    · split
      · rename_i hc
        simp only [Bool.and_eq_true, decide_eq_true_eq] at hc
        omega
      · rename_i hc1 hc2
        have h1 : ¬(48 ≤ d ∧ d ≤ 57) := by simpa using hc1
        have h2 : ¬(97 ≤ d ∧ d ≤ 102) := by simpa using hc2
        omega

/-- Witness for C9: the decimal branch applied to the literal `12`. -/
theorem c9_int_literal_overflow_witness :
    intFromSlice (strBytes "12") =
      (if (strBytes "12").foldl (fun a (d : Nat) => a * 10 + ((d : Int) - 48)) 0 ≤
          i64Max then
        some ((strBytes "12").foldl (fun a (d : Nat) => a * 10 + ((d : Int) - 48)) 0)
       else none) :=
  c9_int_literal_overflow.1 (strBytes "12") (by decide)

/-- Helper: `Tuple.insert` preserves existing keys. -/
theorem Tuple.mem_keys_insert {α : Type} (t : Tuple α) (key k : Sym) (v : α)
    (h : k ∈ t.keys) : k ∈ (t.insert key v).keys := by
  simp only [Tuple.insert]
  split
  · exact h
  · rw [← List.take_append_drop (Tuple.lowerBound t.keys key) t.keys] at h
    simp only [List.mem_append, List.mem_cons] at h ⊢
    tauto

/-- Helper: `Tuple.insert` makes the inserted key present. -/
theorem Tuple.self_mem_keys_insert {α : Type} (t : Tuple α) (key : Sym)
    (v : α) : key ∈ (t.insert key v).keys := by
  simp only [Tuple.insert]
  split
  · rename_i hf
    exact List.get?_mem hf
  · simp

/-- Helper: `KeysMono` holds reflexively on an `ok` outcome carrying the
input frames. -/
theorem KeysMono.refl_ok (sc ctx : Scope) : KeysMono sc ctx (.ok sc ctx) :=
  ⟨fun _ hk => hk, fun _ hk => hk⟩

/-- Helper: `KeysMono` holds reflexively on an `err` outcome carrying the
input frames. -/
theorem KeysMono.refl_err (e : EvalError) (sc ctx : Scope) :
    KeysMono sc ctx (.err e sc ctx) :=
  ⟨fun _ hk => hk, fun _ hk => hk⟩

/-- Helper: `KeysMono` for a two-way branch between `ok` and `err` on the
input frames. -/
theorem KeysMono.branch (sc ctx : Scope) (c : Prop) [Decidable c]
    (e : EvalError) :
    KeysMono sc ctx (if c then BOut.ok sc ctx else BOut.err e sc ctx) := by
  split
  · exact KeysMono.refl_ok sc ctx
  · exact KeysMono.refl_err e sc ctx

/-- Helper: `KeysMono` composes across an intermediate `ok` outcome. -/
theorem KeysMono.trans_ok {sc ctx sc1 ctx1 : Scope} {out : BOut}
    (h1 : KeysMono sc ctx (.ok sc1 ctx1)) (h2 : KeysMono sc1 ctx1 out) :
    KeysMono sc ctx out := by
  cases out with
  | div => trivial
  | panic => trivial
  | ok a b =>
    exact ⟨fun k hk => h2.1 k (h1.1 k hk), fun k hk => h2.2 k (h1.2 k hk)⟩
  | err e a b =>
    exact ⟨fun k hk => h2.1 k (h1.1 k hk), fun k hk => h2.2 k (h1.2 k hk)⟩

/-- Helper: every `bindGo` outcome is key-monotone over both frames. -/
theorem bindGo_keysMono (fuel : Nat) (req : BindReq) (sc ctx : Scope) :
    KeysMono sc ctx (bindGo fuel req sc ctx) := by
  induction fuel generalizing req sc ctx with
  | zero => trivial
  | succ fuel ih =>
    cases req with
    | pat pat value =>
      cases pat with
      | ident s =>
        exact ⟨fun k hk => Tuple.mem_keys_insert _ _ _ _ hk, fun _ hk => hk⟩
      | ctxIdent s =>
        exact ⟨fun _ hk => hk, fun k hk => Tuple.mem_keys_insert _ _ _ _ hk⟩
      | sym s =>
        cases value <;>
          first
            | exact KeysMono.branch sc ctx _ _
            | exact KeysMono.refl_err _ sc ctx
      | str s =>
        cases value <;>
          first
            | exact KeysMono.branch sc ctx _ _
            | exact KeysMono.refl_err _ sc ctx
      | int x =>
        cases value <;>
          first
            | exact KeysMono.branch sc ctx _ _
            | exact KeysMono.refl_err _ sc ctx
      | float x =>
        cases value <;>
          first
            | exact KeysMono.branch sc ctx _ _
            | exact KeysMono.refl_err _ sc ctx
      | bool x =>
        cases value <;>
          first
            | exact KeysMono.branch sc ctx _ _
            | exact KeysMono.refl_err _ sc ctx
      | tuple t =>
        cases value <;>
          first
            | exact ih (.entries t.entries _ 0) sc ctx
            | exact KeysMono.refl_err _ sc ctx
      | wild => exact KeysMono.refl_ok sc ctx
      | list l => trivial
    | entries es vt i =>
      cases es with
      | nil => exact KeysMono.refl_ok sc ctx
      | cons e es =>
        cases e with
        | pos pat =>
          simp only [bindGo]
          cases hget : vt.getPos i with
          | none => exact KeysMono.refl_err _ sc ctx
          | some v =>
            show KeysMono sc ctx
              (match bindGo fuel (.pat pat v) sc ctx with
               | .ok scope1 ctx1 =>
                 bindGo fuel (.entries es vt (i + 1)) scope1 ctx1
               | out => out)
            have h1 := ih (.pat pat v) sc ctx
            cases hm : bindGo fuel (.pat pat v) sc ctx with
            | div => exact trivial
            | panic => exact trivial
            | ok sc1 ctx1 =>
              rw [hm] at h1
              exact KeysMono.trans_ok h1 (ih (.entries es vt (i + 1)) sc1 ctx1)
            | err e' sc1 ctx1 =>
              rw [hm] at h1
              exact h1
        | named key pat =>
          simp only [bindGo]
          cases hget : vt.getKey key with
          | none => exact KeysMono.refl_err _ sc ctx
          | some v =>
            show KeysMono sc ctx
              (match bindGo fuel (.pat pat v) sc ctx with
               | .ok scope1 ctx1 =>
                 bindGo fuel (.entries es vt i) scope1 ctx1
               | out => out)
            have h1 := ih (.pat pat v) sc ctx
            cases hm : bindGo fuel (.pat pat v) sc ctx with
            | div => exact trivial
            | panic => exact trivial
            | ok sc1 ctx1 =>
              rw [hm] at h1
              exact KeysMono.trans_ok h1 (ih (.entries es vt i) sc1 ctx1)
            | err e' sc1 ctx1 =>
              rw [hm] at h1
              exact h1

/-- Helper: the entry loop of `bind_tuple` decomposes over list append —
the second segment runs from the frames the first segment produced, with
the fuel it left and the positional counter it advanced. -/
theorem bindGo_entries_append (es1 : List (TupleEntry Pat)) :
    ∀ (fuel : Nat) (es2 : List (TupleEntry Pat)) (vt : Tuple Value)
      (i : Nat) (sc ctx : Scope),
      bindGo fuel (.entries (es1 ++ es2) vt i) sc ctx =
        (match bindGo fuel (.entries es1 vt i) sc ctx with
         | .ok sc1 ctx1 =>
           bindGo (fuel - es1.length) (.entries es2 vt (i + posCountE es1))
             sc1 ctx1
         | out => out) := by
  induction es1 with
  | nil =>
    intro fuel es2 vt i sc ctx
    cases fuel with
    | zero => simp [bindGo]
    | succ fuel => simp [bindGo, posCountE]
  | cons e es1 ih =>
    intro fuel es2 vt i sc ctx
    cases fuel with
    | zero => simp [bindGo]
    | succ fuel =>
      cases e with
      | pos pat =>
        rw [List.cons_append]
        simp only [bindGo]
        cases hget : vt.getPos i with
        | none => rfl
        | some v =>
          show (match bindGo fuel (.pat pat v) sc ctx with
              | .ok scope1 ctx1 =>
                bindGo fuel (.entries (es1 ++ es2) vt (i + 1)) scope1 ctx1
              | out => out) =
            match (match bindGo fuel (.pat pat v) sc ctx with
              | .ok scope1 ctx1 =>
                bindGo fuel (.entries es1 vt (i + 1)) scope1 ctx1
              | out => out) with
            | .ok a b =>
              bindGo (fuel + 1 - (es1.length + 1))
                (.entries es2 vt (i + posCountE (.pos pat :: es1))) a b
            | out => out
          cases hm : bindGo fuel (.pat pat v) sc ctx with
          | div => rfl
          | panic => rfl
          | err e' sc1 ctx1 => rfl
          | ok sc1 ctx1 =>
            show bindGo fuel (.entries (es1 ++ es2) vt (i + 1)) sc1 ctx1 =
              match bindGo fuel (.entries es1 vt (i + 1)) sc1 ctx1 with
              | .ok a b =>
                bindGo (fuel + 1 - (es1.length + 1))
                  (.entries es2 vt (i + posCountE (.pos pat :: es1))) a b
              | out => out
            rw [ih fuel es2 vt (i + 1) sc1 ctx1]
            have hfuel : fuel + 1 - (es1.length + 1) = fuel - es1.length := by
              omega
            have hcount : i + posCountE (TupleEntry.pos pat :: es1) =
                (i + 1) + posCountE es1 := by
              simp [posCountE, List.countP_cons]
              omega
            rw [hfuel, hcount]
      | named key pat =>
        rw [List.cons_append]
        simp only [bindGo]
        cases hget : vt.getKey key with
        | none => rfl
        | some v =>
          show (match bindGo fuel (.pat pat v) sc ctx with
              | .ok scope1 ctx1 =>
                bindGo fuel (.entries (es1 ++ es2) vt i) scope1 ctx1
              | out => out) =
            match (match bindGo fuel (.pat pat v) sc ctx with
              | .ok scope1 ctx1 =>
                bindGo fuel (.entries es1 vt i) scope1 ctx1
              | out => out) with
            | .ok a b =>
              bindGo (fuel + 1 - (es1.length + 1))
                (.entries es2 vt (i + posCountE (.named key pat :: es1))) a b
            | out => out
          cases hm : bindGo fuel (.pat pat v) sc ctx with
          | div => rfl
          | panic => rfl
          | err e' sc1 ctx1 => rfl
          | ok sc1 ctx1 =>
            show bindGo fuel (.entries (es1 ++ es2) vt i) sc1 ctx1 =
              match bindGo fuel (.entries es1 vt i) sc1 ctx1 with
              | .ok a b =>
                bindGo (fuel + 1 - (es1.length + 1))
                  (.entries es2 vt (i + posCountE (.named key pat :: es1))) a b
              | out => out
            rw [ih fuel es2 vt i sc1 ctx1]
            have hfuel : fuel + 1 - (es1.length + 1) = fuel - es1.length := by
              omega
            have hcount : i + posCountE (TupleEntry.named key pat :: es1) =
                i + posCountE es1 := by
              simp [posCountE, List.countP_cons]
            rw [hfuel, hcount]

/-- Claim C10: tuple-pattern binding is not atomic on failure. If the
entry loop of `bind_tuple` succeeds on a first segment of entries and then
fails with an error on the rest, the whole loop fails with that same error
while keeping the frames the failing segment returned, and every key bound
by the successful prefix (in either frame) is still present in those
frames; an identifier sub-pattern's binding does insert its key; and
concretely, `let (x, 5) = (1, 2)` fails with `Mismatch` while leaving `x`
bound in the lexical scope. -/
theorem c10_partial_binding :
    (∀ (fuel : Nat) (es1 es2 : List (TupleEntry Pat)) (vt : Tuple Value)
       (i : Nat) (sc ctx sc1 ctx1 sc2 ctx2 : Scope) (e : EvalError),
      bindTupleEntries fuel es1 vt i sc ctx = .ok sc1 ctx1 →
      bindTupleEntries (fuel - es1.length) es2 vt (i + posCountE es1) sc1
        ctx1 = .err e sc2 ctx2 →
      bindTupleEntries fuel (es1 ++ es2) vt i sc ctx = .err e sc2 ctx2 ∧
      (∀ k, k ∈ sc1.bindings.keys → k ∈ sc2.bindings.keys) ∧
      (∀ k, k ∈ ctx1.bindings.keys → k ∈ ctx2.bindings.keys)) ∧
    (∀ (fuel : Nat) (s : Sym) (v : Value) (sc ctx : Scope),
      bind (fuel + 1) (.ident s) v sc ctx = .ok (sc.bind s v) ctx ∧
      s ∈ (sc.bind s v).bindings.keys) ∧
    (eval_stmt 5 letDemo 0 1 store2 =
      .err .mismatch [⟨none, Tuple.mk [0] [Value.int 1]⟩, ⟨none, .new⟩] ∧
     (0 : Sym) ∈ (getScope [⟨none, Tuple.mk [0] [Value.int 1]⟩,
       ⟨none, Tuple.new⟩] 0).bindings.keys) := by
  refine ⟨?_, ?_, by rfl, by decide⟩
  · intro fuel es1 es2 vt i sc ctx sc1 ctx1 sc2 ctx2 e h1 h2
    have h1' : bindGo fuel (.entries es1 vt i) sc ctx = .ok sc1 ctx1 := h1
    have h2' : bindGo (fuel - es1.length)
        (.entries es2 vt (i + posCountE es1)) sc1 ctx1 = .err e sc2 ctx2 := h2
    have hm := bindGo_keysMono (fuel - es1.length)
      (.entries es2 vt (i + posCountE es1)) sc1 ctx1
    rw [h2'] at hm
    refine ⟨?_, fun k hk => hm.1 k hk, fun k hk => hm.2 k hk⟩
    show bindGo fuel (.entries (es1 ++ es2) vt i) sc ctx = .err e sc2 ctx2
    rw [bindGo_entries_append es1 fuel es2 vt i sc ctx, h1']
    exact h2'
  · intro fuel s v sc ctx
    exact ⟨rfl, Tuple.self_mem_keys_insert sc.bindings s v⟩

/-- Witness for C10: binding the pattern entries `(x, 5)` (as the segments
`[x]` and `[5]`) against the value entries of `(1, 2)` fails with
`Mismatch` on the second segment while `x`'s binding from the first
segment survives in the returned lexical frame. -/
theorem c10_partial_binding_witness :
    bindTupleEntries 3 ([.pos (.ident 0)] ++ [.pos (.int 5)])
        (Tuple.mk [] [.int 1, .int 2]) 0 ⟨none, .new⟩ ⟨none, .new⟩ =
      .err .mismatch ⟨none, Tuple.mk [0] [.int 1]⟩ ⟨none, .new⟩ ∧
    (∀ k, k ∈ (Tuple.mk [0] [Value.int 1]).keys →
      k ∈ (Tuple.mk [0] [Value.int 1]).keys) ∧
    (∀ k, k ∈ (Tuple.new : Tuple Value).keys →
      k ∈ (Tuple.new : Tuple Value).keys) :=
  c10_partial_binding.1 3 [.pos (.ident 0)] [.pos (.int 5)]
    (Tuple.mk [] [.int 1, .int 2]) 0 ⟨none, .new⟩ ⟨none, .new⟩
    ⟨none, Tuple.mk [0] [.int 1]⟩ ⟨none, .new⟩
    ⟨none, Tuple.mk [0] [.int 1]⟩ ⟨none, .new⟩ .mismatch (by rfl) (by rfl)

/-- Helper: an empty range contains no newline. -/
theorem newlineIn_empty (src : List Nat) {a b : Nat} (h : b ≤ a) :
    newlineIn src a b = false := by
  unfold newlineIn
  rw [Nat.sub_eq_zero_of_le h]
  rfl

/-- Helper: a one-byte range contains a newline exactly when that byte is
a line feed. -/
theorem newlineIn_single (src : List Nat) (a : Nat) :
    newlineIn src a (a + 1) = (src.getD a 0 == 10) := by
  unfold newlineIn
  rw [Nat.add_sub_cancel_left]
  simp [List.range']

/-- Helper: newlines in a concatenated range. -/
theorem newlineIn_split (src : List Nat) {a b c : Nat} (h1 : a ≤ b)
    (h2 : b ≤ c) :
    newlineIn src a c = (newlineIn src a b || newlineIn src b c) := by
  unfold newlineIn
  have hr : List.range' a (c - a) =
      List.range' a (b - a) ++ List.range' b (c - b) := by
    have := List.range'_append a (b - a) (c - b) 1
    rw [show a + 1 * (b - a) = b by omega] at this
    rw [this]
    congr 1
    omega
  rw [hr, List.any_append]

/-- Helper: `flagStep` over an empty range is the identity. -/
theorem flagStep_empty (src : List Nat) (last : Option TokenKind)
    (flag : Bool) {a b : Nat} (h : b ≤ a) :
    flagStep src last flag a b = flag := by
  unfold flagStep
  rw [newlineIn_empty src h]
  rfl

/-- Helper: `flagStep` composes over adjacent ranges. -/
theorem flagStep_trans (src : List Nat) (last : Option TokenKind)
    (flag : Bool) {a b c : Nat} (h1 : a ≤ b) (h2 : b ≤ c) :
    flagStep src last (flagStep src last flag a b) b c =
      flagStep src last flag a c := by
  unfold flagStep
  rw [newlineIn_split src h1 h2]
  cases hb : newlineIn src b c with
  | true => simp [hb]
  | false => simp [hb]

/-- Helper: `Advances` is reflexive. -/
theorem advances_refl (st : LexSt) : Advances st st :=
  ⟨rfl, rfl, rfl, le_refl _,
    (flagStep_empty st.source st.lastTokenKind st.autoInsertComma
      (le_refl _)).symm⟩

/-- Helper: `Advances` is transitive. -/
theorem advances_trans {st st' st'' : LexSt} (h1 : Advances st st')
    (h2 : Advances st' st'') : Advances st st'' := by
  obtain ⟨s1, l1, a1, b1, f1⟩ := h1
  obtain ⟨s2, l2, a2, b2, f2⟩ := h2
  refine ⟨s2.trans s1, l2.trans l1, a2.trans a1, b1.trans b2, ?_⟩
  rw [f2, s1, l1, f1]
  exact flagStep_trans st.source st.lastTokenKind st.autoInsertComma b1 b2

/-- Helper: `bump` advances. -/
theorem advances_bump (st : LexSt) : Advances st (bump st) := by
  refine ⟨rfl, rfl, rfl, Nat.le_succ _, ?_⟩
  show (if st.first = 10 then isCloser st.lastTokenKind
      else st.autoInsertComma) = _
  unfold flagStep
  rw [show (bump st).span.stop = st.span.stop + 1 from rfl, newlineIn_single]
  unfold LexSt.first
  by_cases h : st.source.getD st.span.stop 0 = 10
  · rw [if_pos h, if_pos (beq_iff_eq.mpr h)]
  · rw [if_neg h, if_neg (fun hc => h (beq_iff_eq.mp hc))]

/-- Helper: the state component of `bumpIf` advances. -/
theorem advances_bumpIf (f : Nat → Bool) (st : LexSt) :
    Advances st (bumpIf f st).2 := by
  unfold bumpIf
  split
  · exact advances_bump st
  · exact advances_refl st

/-- Helper: `bumpWhileAux` advances. -/
theorem advances_bumpWhileAux (f : Nat → Bool) :
    ∀ (fuel : Nat) (st : LexSt), Advances st (bumpWhileAux f fuel st) := by
  intro fuel
  induction fuel with
  | zero => intro st; exact advances_refl st
  | succ fuel ih =>
    intro st
    unfold bumpWhileAux
    split
    · exact advances_trans (advances_bump st) (ih (bump st))
    · exact advances_refl st

/-- Helper: `bumpWhile` advances. -/
theorem advances_bumpWhile (f : Nat → Bool) (st : LexSt) :
    Advances st (bumpWhile f st) :=
  advances_bumpWhileAux f (st.source.length + 1) st

/-- Helper: a successful `skipCommentAux` advances. -/
theorem advances_skipCommentAux :
    ∀ (fuel : Nat) (st st' : LexSt), skipCommentAux fuel st = some st' →
      Advances st st' := by
  intro fuel
  induction fuel with
  | zero => intro st st' h; exact absurd h (by simp [skipCommentAux])
  | succ fuel ih =>
    intro st st' h
    unfold skipCommentAux at h
    split at h
    · exact advances_trans (advances_bump st) (ih (bump st) st' h)
    · exact Option.some.inj h ▸ advances_refl st

/-- Helper: a successful `whitespaceAux` advances. -/
theorem advances_whitespaceAux :
    ∀ (fuel : Nat) (st st' : LexSt), whitespaceAux fuel st = some st' →
      Advances st st' := by
  intro fuel
  induction fuel with
  | zero => intro st st' h; exact absurd h (by simp [whitespaceAux])
  | succ fuel ih =>
    intro st st' h
    unfold whitespaceAux at h
    simp only [] at h
    split at h
    · rename_i hp
      split at h
      · rename_i st2 hsk
        have a1 : Advances st (bumpWhile isWhitespaceByte st) :=
          advances_bumpWhile isWhitespaceByte st
        have a2 : Advances (bumpWhile isWhitespaceByte st)
            (bumpIf (fun c => c == 35) (bumpWhile isWhitespaceByte st)).2 :=
          advances_bumpIf _ _
        have hsk' : skipCommentAux
            ((bumpIf (fun c => c == 35)
              (bumpWhile isWhitespaceByte st)).2.source.length + 1)
            (bumpIf (fun c => c == 35) (bumpWhile isWhitespaceByte st)).2 =
            some st2 := hsk
        have a3 := advances_skipCommentAux _ _ _ hsk'
        exact advances_trans a1 (advances_trans a2
          (advances_trans a3 (ih st2 st' h)))
      · exact absurd h (by simp)
    · rw [← Option.some.inj h]
      exact advances_trans (advances_bumpWhile isWhitespaceByte st)
        (advances_bumpIf _ _)

/-- Helper: a successful `whitespace` advances. -/
theorem advances_whitespace {st st' : LexSt} (h : whitespace st = some st') :
    Advances st st' :=
  advances_whitespaceAux _ st st' h

/-- Helper: `emitTok` from a strictly advanced state satisfies the scanner
specification. -/
theorem emitTok_scanSpec {st0 st' : LexSt} (k : TokenKind)
    (hA : Advances st0 st') (hlt : st0.span.stop < st'.span.stop) :
    ScanSpec (emitTok k st') st0 := by
  obtain ⟨hs, hl, ha, hb, hf⟩ := hA
  refine ⟨hs, ha, ?_, hlt, rfl, by show st'.autoInsertComma = _; rw [hf]⟩
  show st'.span = ⟨st0.span.start, st'.span.stop⟩
  cases hsp : st'.span with
  | mk x y =>
    rw [hsp] at ha
    simp at ha
    simp [ha]

/-- Helper: advancing never moves the cursor backwards. -/
theorem advances_stop_le {st st' : LexSt} (h : Advances st st') :
    st.span.stop ≤ st'.span.stop := h.2.2.2.1

/-- Helper: a succeeding `bumpIf` performed exactly one `bump`. -/
theorem bumpIf_true {f : Nat → Bool} {st : LexSt}
    (h : (bumpIf f st).1 = true) : (bumpIf f st).2 = bump st := by
  unfold bumpIf
  split
  · rfl
  · rename_i hc
    unfold bumpIf at h
    rw [if_neg hc] at h
    exact absurd h (by simp)

/-- Helper: a token emitted right after one succeeding `bumpIf` satisfies
the scanner specification. -/
theorem scanSpec_emit1 (k : TokenKind) (f : Nat → Bool) (st0 : LexSt)
    (h : (bumpIf f st0).1 = true) :
    ScanSpec (emitTok k (bumpIf f st0).2) st0 := by
  rw [bumpIf_true h]
  exact emitTok_scanSpec k (advances_bump st0) (Nat.lt_succ_self _)

/-- Helper: a token emitted after a succeeding `bumpIf` followed by a
second (possibly failing) `bumpIf` satisfies the scanner specification. -/
theorem scanSpec_emit2 (k : TokenKind) (f g : Nat → Bool) (st0 : LexSt)
    (h : (bumpIf f st0).1 = true) :
    ScanSpec (emitTok k (bumpIf g (bumpIf f st0).2).2) st0 := by
  rw [bumpIf_true h]
  refine emitTok_scanSpec k
    (advances_trans (advances_bump st0) (advances_bumpIf g (bump st0))) ?_
  have h2 := advances_stop_le (advances_bumpIf g (bump st0))
  have hb : (bump st0).span.stop = st0.span.stop + 1 := rfl
  omega

/-- Helper: a token emitted from any state reached from `bump st0` satisfies
the scanner specification. -/
theorem emit_after_bump_scanSpec (k : TokenKind) {st0 st' : LexSt}
    (h1 : Advances (bump st0) st') : ScanSpec (emitTok k st') st0 := by
  refine emitTok_scanSpec k (advances_trans (advances_bump st0) h1) ?_
  have h2 := advances_stop_le h1
  have hb : (bump st0).span.stop = st0.span.stop + 1 := rfl
  omega

/-- Helper: declining returns the state unchanged. -/
theorem scanSpec_decline (st0 : LexSt) : ScanSpec (ScanOut.decline st0) st0 :=
  rfl

/-- Helper: one single-character attempt of `punctuation`. -/
theorem scanSpec_chain1 (k : TokenKind) (f : Nat → Bool) (st0 : LexSt)
    (out : ScanOut) (hout : ScanSpec out st0) :
    ScanSpec
      (if (bumpIf f st0).1 = true then emitTok k (bumpIf f st0).2 else out)
      st0 := by
  split
  · rename_i h
    exact scanSpec_emit1 k f st0 h
  · exact hout

/-- Helper: one two-character attempt of `punctuation` with a one-character
fallback. -/
theorem scanSpec_chain2 (k1 k2 : TokenKind) (f g : Nat → Bool) (st0 : LexSt)
    (out : ScanOut) (hout : ScanSpec out st0) :
    ScanSpec
      (if (bumpIf f st0).1 = true then
        (if (bumpIf g (bumpIf f st0).2).1 = true then
          emitTok k1 (bumpIf g (bumpIf f st0).2).2
         else emitTok k2 (bumpIf g (bumpIf f st0).2).2)
       else out) st0 := by
  split
  · rename_i h
    split
    · exact scanSpec_emit2 k1 f g st0 h
    · exact scanSpec_emit2 k2 f g st0 h
  · exact hout

/-- Helper: one attempt of `punctuation` trying two distinct second
characters before the one-character fallback. -/
theorem scanSpec_chain3 (k1 k2 k3 : TokenKind) (f g1 g2 : Nat → Bool)
    (st0 : LexSt) (out : ScanOut) (hout : ScanSpec out st0) :
    ScanSpec
      (if (bumpIf f st0).1 = true then
        (if (bumpIf g1 (bumpIf f st0).2).1 = true then
          emitTok k1 (bumpIf g1 (bumpIf f st0).2).2
         else if (bumpIf g2 (bumpIf f st0).2).1 = true then
          emitTok k2 (bumpIf g2 (bumpIf f st0).2).2
         else emitTok k3 (bumpIf g2 (bumpIf f st0).2).2)
       else out) st0 := by
  split
  · rename_i h
    split
    · exact scanSpec_emit2 k1 f g1 st0 h
    · split
      · exact scanSpec_emit2 k2 f g2 st0 h
      · exact scanSpec_emit2 k3 f g2 st0 h
  · exact hout

/-- Helper: `punctuation` satisfies the scanner specification. -/
theorem punctuation_scanSpec (st0 : LexSt) :
    ScanSpec (punctuation st0) st0 :=
  scanSpec_chain1 .lParen _ st0 _
    (scanSpec_chain1 .rParen _ st0 _
    (scanSpec_chain1 .lBracket _ st0 _
    (scanSpec_chain1 .rBracket _ st0 _
    (scanSpec_chain1 .lBrace _ st0 _
    (scanSpec_chain1 .rBrace _ st0 _
    (scanSpec_chain1 .comma _ st0 _
    (scanSpec_chain1 .colon _ st0 _
    (scanSpec_chain1 .period _ st0 _
    (scanSpec_chain1 .plus _ st0 _
    (scanSpec_chain1 .minus _ st0 _
    (scanSpec_chain2 .starStar .star _ _ st0 _
    (scanSpec_chain1 .slash _ st0 _
    (scanSpec_chain1 .percent _ st0 _
    (scanSpec_chain2 .eqEq .eq _ _ st0 _
    (scanSpec_chain2 .notEq .not _ _ st0 _
    (scanSpec_chain3 .gtGt .gtEq .gt _ _ _ st0 _
    (scanSpec_chain3 .ltLt .ltEq .lt _ _ _ st0 _
    (scanSpec_chain2 .andAnd .and _ _ st0 _
    (scanSpec_chain2 .orOr .or _ _ st0 _
    (scanSpec_chain1 .caret _ st0 _
    (scanSpec_chain1 .tilde _ st0 _
    (scanSpec_decline st0))))))))))))))))))))))

/-- Helper: `identScan` satisfies the scanner specification. -/
theorem identScan_scanSpec (st0 : LexSt) : ScanSpec (identScan st0) st0 := by
  simp only [identScan]
  split
  · rename_i hc
    rw [bumpIf_true hc]
    exact emit_after_bump_scanSpec _ (advances_bumpWhile isIdentCont _)
  · rfl

/-- Helper: `ctxIdentScan` satisfies the scanner specification. -/
theorem ctxIdentScan_scanSpec (st0 : LexSt) :
    ScanSpec (ctxIdentScan st0) st0 := by
  simp only [ctxIdentScan]
  split
  · rename_i hc
    rw [bumpIf_true hc]
    exact emit_after_bump_scanSpec _ (advances_bumpWhile isIdentCont _)
  · rfl

/-- Helper: `errorScan` satisfies the scanner specification. -/
theorem errorScan_scanSpec (st0 : LexSt) : ScanSpec (errorScan st0) st0 := by
  simp only [errorScan]
  split
  · trivial
  · rfl

/-- Helper: the string/symbol loop satisfies the scanner specification from
any strictly advanced state. -/
theorem stringLoopAux_scanSpec (delim : Nat) (kind : TokenKind) :
    ∀ (fuel : Nat) (st0 st : LexSt), Advances st0 st →
      st0.span.stop < st.span.stop →
      ScanSpec (stringLoopAux delim kind fuel st) st0 := by
  intro fuel
  induction fuel with
  | zero => intro st0 st hA hlt; trivial
  | succ fuel ih =>
    intro st0 st hA hlt
    unfold stringLoopAux
    simp only []
    split
    · trivial
    · split
      · split
        · apply ih
          · exact advances_trans hA
              (advances_trans (advances_bumpIf _ _) (advances_bumpIf _ _))
          · have h1 := advances_stop_le
              (advances_bumpIf (fun c => c == 92) st)
            have h2 := advances_stop_le
              (advances_bumpIf (fun c => c != 0)
                (bumpIf (fun c => c == 92) st).2)
            omega
        · trivial
      · split
        · exact emitTok_scanSpec kind
            (advances_trans hA (advances_bumpIf _ _))
            (lt_of_lt_of_le hlt
              (advances_stop_le (advances_bumpIf _ _)))
        · apply ih
          · exact advances_trans hA (advances_bump st)
          · exact lt_trans hlt (Nat.lt_succ_self _)

/-- Helper: `symbolOrString` satisfies the scanner specification. -/
theorem symbolOrString_scanSpec (st0 : LexSt) :
    ScanSpec (symbolOrString st0) st0 := by
  unfold symbolOrString
  simp only []
  split
  · exact stringLoopAux_scanSpec _ _ _ st0 (bump st0) (advances_bump st0)
      (Nat.lt_succ_self _)
  · rfl

/-- Helper: `intOrFloat` satisfies the scanner specification. -/
theorem intOrFloat_scanSpec (st0 : LexSt) : ScanSpec (intOrFloat st0) st0 := by
  simp only [intOrFloat]
  split
  · exact emit_after_bump_scanSpec _
      (advances_trans (advances_bump _) (advances_bumpWhile _ _))
  · split
    · exact emit_after_bump_scanSpec _
        (advances_trans (advances_bump _) (advances_bumpWhile _ _))
    · split
      · exact emit_after_bump_scanSpec _
          (advances_trans (advances_bump _) (advances_bumpWhile _ _))
      · split
        · rename_i hd
          rw [bumpIf_true hd]
          split
          · split
            · exact emit_after_bump_scanSpec _
                (advances_trans (advances_bumpWhile _ _)
                  (advances_trans (advances_bumpIf _ _)
                    (advances_trans (advances_bumpWhile _ _)
                      (advances_trans (advances_bumpIf _ _)
                        (advances_trans (advances_bumpIf _ _)
                          (advances_bumpWhile _ _))))))
            · exact emit_after_bump_scanSpec _
                (advances_trans (advances_bumpWhile _ _)
                  (advances_trans (advances_bumpIf _ _)
                    (advances_trans (advances_bumpWhile _ _)
                      (advances_bumpIf _ _))))
          · split
            · exact emit_after_bump_scanSpec _
                (advances_trans (advances_bumpWhile _ _)
                  (advances_trans (advances_bumpIf _ _)
                    (advances_trans (advances_bumpIf _ _)
                      (advances_bumpWhile _ _))))
            · exact emit_after_bump_scanSpec _
                (advances_trans (advances_bumpWhile _ _)
                  (advances_bumpIf _ _))
        · rfl

/-- Helper: the `NextSpec` payload holds for the `toNext` conversion of any
scanner outcome produced from the whitespace-skipped, span-reset state. -/
theorem scanOut_toNext_spec (st0 st1 : LexSt) (hA : Advances st0 st1)
    (hfl : st1.autoInsertComma = false) (out : ScanOut)
    (hspec : ScanSpec out { st1 with span := ⟨st1.span.stop, st1.span.stop⟩ }) :
    (match out.toNext with
     | .tok t st' =>
       st'.source = st0.source ∧ st'.lastTokenKind = some t.kind ∧
       st0.span.stop ≤ t.span.start ∧ st'.span.start = t.span.start ∧
       st'.span.stop = t.span.stop ∧
       ((t.kind = .comma ∧ t.span.stop = t.span.start ∧
         st'.autoInsertComma = false ∧
         flagStep st0.source st0.lastTokenKind st0.autoInsertComma
           st0.span.stop t.span.start = true)
        ∨ (t.span.start < t.span.stop ∧
           flagStep st0.source st0.lastTokenKind st0.autoInsertComma
             st0.span.stop t.span.start = false ∧
           st'.autoInsertComma =
             flagStep st0.source st0.lastTokenKind false
               t.span.start t.span.stop))
     | _ => True) := by
  cases out with
  | div => exact trivial
  | decline st3 => exact trivial
  | fail e st3 => exact trivial
  | tok t st' =>
    obtain ⟨hs, hstart, hspan, hlt, hlast, hflag⟩ := hspec
    refine ⟨hs.trans hA.1, hlast, ?_, ?_, ?_, Or.inr ⟨?_, ?_, ?_⟩⟩
    · rw [hspan]
      exact advances_stop_le hA
    · rw [hspan]
      exact hstart
    · rw [hspan]
    · rw [hspan]
      exact hlt
    · rw [hspan]
      show flagStep st0.source st0.lastTokenKind st0.autoInsertComma
        st0.span.stop st1.span.stop = false
      rw [← hA.2.2.2.2]
      exact hfl
    · rw [hspan]
      calc st'.autoInsertComma
          = flagStep st1.source st1.lastTokenKind st1.autoInsertComma
              st1.span.stop st'.span.stop := hflag
        _ = flagStep st0.source st0.lastTokenKind false
              st1.span.stop st'.span.stop := by
            rw [hA.1, hA.2.1, hfl]

/-- Helper: the scanner cascade of `nextToken` from the `intOrFloat` attempt
onwards satisfies the token payload of `NextSpec`. -/
theorem cascadeSpec5 (st0 st1 : LexSt) (hA : Advances st0 st1)
    (hfl : st1.autoInsertComma = false) :
    (match
      (match intOrFloat { st1 with span := ⟨st1.span.stop, st1.span.stop⟩ } with
       | .decline st7 =>
         (errorScan st7).toNext
       | out => out.toNext) with
     | .tok t st' =>
       st'.source = st0.source ∧ st'.lastTokenKind = some t.kind ∧
       st0.span.stop ≤ t.span.start ∧ st'.span.start = t.span.start ∧
       st'.span.stop = t.span.stop ∧
       ((t.kind = .comma ∧ t.span.stop = t.span.start ∧
         st'.autoInsertComma = false ∧
         flagStep st0.source st0.lastTokenKind st0.autoInsertComma
           st0.span.stop t.span.start = true)
        ∨ (t.span.start < t.span.stop ∧
           flagStep st0.source st0.lastTokenKind st0.autoInsertComma
             st0.span.stop t.span.start = false ∧
           st'.autoInsertComma =
             flagStep st0.source st0.lastTokenKind false
               t.span.start t.span.stop))
     | _ => True) := by
  cases hs : intOrFloat { st1 with span := ⟨st1.span.stop, st1.span.stop⟩ } with
  | div => exact trivial
  | fail e st7 => exact trivial
  | tok t st7 =>
    have hsp := intOrFloat_scanSpec { st1 with span := ⟨st1.span.stop, st1.span.stop⟩ }
    rw [hs] at hsp
    exact scanOut_toNext_spec st0 st1 hA hfl (.tok t st7) hsp
  | decline st7 =>
    have h : st7 = { st1 with span := ⟨st1.span.stop, st1.span.stop⟩ } := by
      have hsp := intOrFloat_scanSpec { st1 with span := ⟨st1.span.stop, st1.span.stop⟩ }
      rw [hs] at hsp
      exact hsp
    subst h
    exact scanOut_toNext_spec st0 st1 hA hfl _ (errorScan_scanSpec _)

/-- Helper: the scanner cascade of `nextToken` from the `symbolOrString` attempt
onwards satisfies the token payload of `NextSpec`. -/
theorem cascadeSpec4 (st0 st1 : LexSt) (hA : Advances st0 st1)
    (hfl : st1.autoInsertComma = false) :
    (match
      (match symbolOrString { st1 with span := ⟨st1.span.stop, st1.span.stop⟩ } with
       | .decline st6 =>
         match intOrFloat st6 with
         | .decline st7 =>
           (errorScan st7).toNext
         | out => out.toNext
       | out => out.toNext) with
     | .tok t st' =>
       st'.source = st0.source ∧ st'.lastTokenKind = some t.kind ∧
       st0.span.stop ≤ t.span.start ∧ st'.span.start = t.span.start ∧
       st'.span.stop = t.span.stop ∧
       ((t.kind = .comma ∧ t.span.stop = t.span.start ∧
         st'.autoInsertComma = false ∧
         flagStep st0.source st0.lastTokenKind st0.autoInsertComma
           st0.span.stop t.span.start = true)
        ∨ (t.span.start < t.span.stop ∧
           flagStep st0.source st0.lastTokenKind st0.autoInsertComma
             st0.span.stop t.span.start = false ∧
           st'.autoInsertComma =
             flagStep st0.source st0.lastTokenKind false
               t.span.start t.span.stop))
     | _ => True) := by
  cases hs : symbolOrString { st1 with span := ⟨st1.span.stop, st1.span.stop⟩ } with
  | div => exact trivial
  | fail e st6 => exact trivial
  | tok t st6 =>
    have hsp := symbolOrString_scanSpec { st1 with span := ⟨st1.span.stop, st1.span.stop⟩ }
    rw [hs] at hsp
    exact scanOut_toNext_spec st0 st1 hA hfl (.tok t st6) hsp
  | decline st6 =>
    have h : st6 = { st1 with span := ⟨st1.span.stop, st1.span.stop⟩ } := by
      have hsp := symbolOrString_scanSpec { st1 with span := ⟨st1.span.stop, st1.span.stop⟩ }
      rw [hs] at hsp
      exact hsp
    subst h
    exact cascadeSpec5 st0 st1 hA hfl

/-- Helper: the scanner cascade of `nextToken` from the `ctxIdentScan` attempt
onwards satisfies the token payload of `NextSpec`. -/
theorem cascadeSpec3 (st0 st1 : LexSt) (hA : Advances st0 st1)
    (hfl : st1.autoInsertComma = false) :
    (match
      (match ctxIdentScan { st1 with span := ⟨st1.span.stop, st1.span.stop⟩ } with
       | .decline st5 =>
         match symbolOrString st5 with
         | .decline st6 =>
           match intOrFloat st6 with
           | .decline st7 =>
             (errorScan st7).toNext
           | out => out.toNext
         | out => out.toNext
       | out => out.toNext) with
     | .tok t st' =>
       st'.source = st0.source ∧ st'.lastTokenKind = some t.kind ∧
       st0.span.stop ≤ t.span.start ∧ st'.span.start = t.span.start ∧
       st'.span.stop = t.span.stop ∧
       ((t.kind = .comma ∧ t.span.stop = t.span.start ∧
         st'.autoInsertComma = false ∧
         flagStep st0.source st0.lastTokenKind st0.autoInsertComma
           st0.span.stop t.span.start = true)
        ∨ (t.span.start < t.span.stop ∧
           flagStep st0.source st0.lastTokenKind st0.autoInsertComma
             st0.span.stop t.span.start = false ∧
           st'.autoInsertComma =
             flagStep st0.source st0.lastTokenKind false
               t.span.start t.span.stop))
     | _ => True) := by
  cases hs : ctxIdentScan { st1 with span := ⟨st1.span.stop, st1.span.stop⟩ } with
  | div => exact trivial
  | fail e st5 => exact trivial
  | tok t st5 =>
    have hsp := ctxIdentScan_scanSpec { st1 with span := ⟨st1.span.stop, st1.span.stop⟩ }
    rw [hs] at hsp
    exact scanOut_toNext_spec st0 st1 hA hfl (.tok t st5) hsp
  | decline st5 =>
    have h : st5 = { st1 with span := ⟨st1.span.stop, st1.span.stop⟩ } := by
      have hsp := ctxIdentScan_scanSpec { st1 with span := ⟨st1.span.stop, st1.span.stop⟩ }
      rw [hs] at hsp
      exact hsp
    subst h
    exact cascadeSpec4 st0 st1 hA hfl

/-- Helper: the scanner cascade of `nextToken` from the `identScan` attempt
onwards satisfies the token payload of `NextSpec`. -/
theorem cascadeSpec2 (st0 st1 : LexSt) (hA : Advances st0 st1)
    (hfl : st1.autoInsertComma = false) :
    (match
      (match identScan { st1 with span := ⟨st1.span.stop, st1.span.stop⟩ } with
       | .decline st4 =>
         match ctxIdentScan st4 with
         | .decline st5 =>
           match symbolOrString st5 with
           | .decline st6 =>
             match intOrFloat st6 with
             | .decline st7 =>
               (errorScan st7).toNext
             | out => out.toNext
           | out => out.toNext
         | out => out.toNext
       | out => out.toNext) with
     | .tok t st' =>
       st'.source = st0.source ∧ st'.lastTokenKind = some t.kind ∧
       st0.span.stop ≤ t.span.start ∧ st'.span.start = t.span.start ∧
       st'.span.stop = t.span.stop ∧
       ((t.kind = .comma ∧ t.span.stop = t.span.start ∧
         st'.autoInsertComma = false ∧
         flagStep st0.source st0.lastTokenKind st0.autoInsertComma
           st0.span.stop t.span.start = true)
        ∨ (t.span.start < t.span.stop ∧
           flagStep st0.source st0.lastTokenKind st0.autoInsertComma
             st0.span.stop t.span.start = false ∧
           st'.autoInsertComma =
             flagStep st0.source st0.lastTokenKind false
               t.span.start t.span.stop))
     | _ => True) := by
  cases hs : identScan { st1 with span := ⟨st1.span.stop, st1.span.stop⟩ } with
  | div => exact trivial
  | fail e st4 => exact trivial
  | tok t st4 =>
    have hsp := identScan_scanSpec { st1 with span := ⟨st1.span.stop, st1.span.stop⟩ }
    rw [hs] at hsp
    exact scanOut_toNext_spec st0 st1 hA hfl (.tok t st4) hsp
  | decline st4 =>
    have h : st4 = { st1 with span := ⟨st1.span.stop, st1.span.stop⟩ } := by
      have hsp := identScan_scanSpec { st1 with span := ⟨st1.span.stop, st1.span.stop⟩ }
      rw [hs] at hsp
      exact hsp
    subst h
    exact cascadeSpec3 st0 st1 hA hfl

/-- Helper: the scanner cascade of `nextToken` from the `punctuation` attempt
onwards satisfies the token payload of `NextSpec`. -/
theorem cascadeSpec1 (st0 st1 : LexSt) (hA : Advances st0 st1)
    (hfl : st1.autoInsertComma = false) :
    (match
      (match punctuation { st1 with span := ⟨st1.span.stop, st1.span.stop⟩ } with
       | .decline st3 =>
         match identScan st3 with
         | .decline st4 =>
           match ctxIdentScan st4 with
           | .decline st5 =>
             match symbolOrString st5 with
             | .decline st6 =>
               match intOrFloat st6 with
               | .decline st7 =>
                 (errorScan st7).toNext
               | out => out.toNext
             | out => out.toNext
           | out => out.toNext
         | out => out.toNext
       | out => out.toNext) with
     | .tok t st' =>
       st'.source = st0.source ∧ st'.lastTokenKind = some t.kind ∧
       st0.span.stop ≤ t.span.start ∧ st'.span.start = t.span.start ∧
       st'.span.stop = t.span.stop ∧
       ((t.kind = .comma ∧ t.span.stop = t.span.start ∧
         st'.autoInsertComma = false ∧
         flagStep st0.source st0.lastTokenKind st0.autoInsertComma
           st0.span.stop t.span.start = true)
        ∨ (t.span.start < t.span.stop ∧
           flagStep st0.source st0.lastTokenKind st0.autoInsertComma
             st0.span.stop t.span.start = false ∧
           st'.autoInsertComma =
             flagStep st0.source st0.lastTokenKind false
               t.span.start t.span.stop))
     | _ => True) := by
  cases hs : punctuation { st1 with span := ⟨st1.span.stop, st1.span.stop⟩ } with
  | div => exact trivial
  | fail e st3 => exact trivial
  | tok t st3 =>
    have hsp := punctuation_scanSpec { st1 with span := ⟨st1.span.stop, st1.span.stop⟩ }
    rw [hs] at hsp
    exact scanOut_toNext_spec st0 st1 hA hfl (.tok t st3) hsp
  | decline st3 =>
    have h : st3 = { st1 with span := ⟨st1.span.stop, st1.span.stop⟩ } := by
      have hsp := punctuation_scanSpec { st1 with span := ⟨st1.span.stop, st1.span.stop⟩ }
      rw [hs] at hsp
      exact hsp
    subst h
    exact cascadeSpec2 st0 st1 hA hfl

/-- Helper: `nextToken` satisfies its specification at every state. -/
theorem nextToken_nextSpec (st0 : LexSt) : NextSpec st0 := by
  unfold NextSpec
  cases hw : whitespace st0 with
  | none =>
    rw [show nextToken st0 = .div by unfold nextToken; rw [hw]]
    exact trivial
  | some st1 =>
    have hA := advances_whitespace hw
    have hnt : nextToken st0 =
        (if st1.autoInsertComma = true then
          .tok ⟨.comma, ⟨st1.span.stop, st1.span.stop⟩⟩
            ⟨st1.source, ⟨st1.span.stop, st1.span.stop⟩,
              some TokenKind.comma, false⟩
         else
          match punctuation
              { st1 with span := ⟨st1.span.stop, st1.span.stop⟩ } with
          | .decline st3 =>
            match identScan st3 with
            | .decline st4 =>
              match ctxIdentScan st4 with
              | .decline st5 =>
                match symbolOrString st5 with
                | .decline st6 =>
                  match intOrFloat st6 with
                  | .decline st7 => (errorScan st7).toNext
                  | out => out.toNext
                | out => out.toNext
              | out => out.toNext
            | out => out.toNext
          | out => out.toNext) := by
      unfold nextToken
      rw [hw]
    rw [hnt]
    by_cases hfl : st1.autoInsertComma = true
    · rw [if_pos hfl]
      refine ⟨hA.1, rfl, advances_stop_le hA, rfl, rfl,
        Or.inl ⟨rfl, rfl, rfl, ?_⟩⟩
      show flagStep st0.source st0.lastTokenKind st0.autoInsertComma
        st0.span.stop st1.span.stop = true
      rw [← hA.2.2.2.2]
      exact hfl
    · rw [if_neg hfl]
      have hfl' : st1.autoInsertComma = false := by
        revert hfl
        cases st1.autoInsertComma <;> simp
      exact cascadeSpec1 st0 st1 hA hfl'

/-- Helper: unfolding equation for `autoCommaAt` at a successor position,
with the inner position test written as an `if` on the index. -/
theorem autoCommaAt_succ (src : List Nat) (ts : List Token) (j : Nat) :
    autoCommaAt src ts (j + 1) =
      (match ts.get? j, ts.get? (j + 1) with
       | some prev, some cur =>
         if newlineIn src prev.span.stop cur.span.start then
           isCloser (some prev.kind)
         else if newlineIn src prev.span.start prev.span.stop then
           (if j = 0 then false
            else isCloser ((ts.get? (j - 1)).map Token.kind))
         else false
       | _, _ => false) := by
  show (match ts.get? j, ts.get? (j + 1) with
    | some prev, some cur =>
      if newlineIn src prev.span.stop cur.span.start then
        isCloser (some prev.kind)
      else if newlineIn src prev.span.start prev.span.stop then
        (match j with
         | 0 => false
         | jj + 1 => isCloser ((ts.get? jj).map Token.kind))
      else false
    | _, _ => false) = _
  cases ts.get? j with
  | none => rfl
  | some prev =>
    cases ts.get? (j + 1) with
    | none => rfl
    | some cur =>
      by_cases h0 : j = 0
      · subst h0
        rfl
      · obtain ⟨jj, rfl⟩ : ∃ jj, j = jj + 1 := ⟨j - 1, by omega⟩
        rfl

/-- Helper: the auto-comma specification at a position strictly inside a
prefix is unaffected by appending further tokens. -/
theorem autoCommaAt_append (src : List Nat) (pre rest : List Token) :
    ∀ (i : Nat), i < pre.length →
      autoCommaAt src (pre ++ rest) i = autoCommaAt src pre i := by
  intro i hi
  cases i with
  | zero => rfl
  | succ j =>
    rw [autoCommaAt_succ src (pre ++ rest) j, autoCommaAt_succ src pre j]
    rw [List.get?_append (show j < pre.length by omega),
      List.get?_append (show j + 1 < pre.length from hi)]
    cases hj : pre.get? j with
    | none => rfl
    | some prev =>
      cases hj1 : pre.get? (j + 1) with
      | none => rfl
      | some cur =>
        cases j with
        | zero => rfl
        | succ jj =>
          rw [show jj + 1 - 1 = jj from rfl,
            List.get?_append (show jj < pre.length by omega)]

/-- Helper: one emitted token extends the lexer invariant and satisfies the
auto-comma specification at its own (new last) position. -/
theorem lexStep (src : List Nat) (ts0 : List Token) (st st' : LexSt)
    (t : Token) (hinv : LexInv src ts0 st)
    (hnt : nextToken st = .tok t st') :
    LexInv src (ts0 ++ [t]) st' ∧
    (isSyntheticComma t = true ↔
      autoCommaAt src (ts0 ++ [t]) ts0.length = true) := by
  have hns := nextToken_nextSpec st
  unfold NextSpec at hns
  rw [hnt] at hns
  obtain ⟨hsrc, hlast, hle, hstart, hstop, hdisj⟩ := hns
  obtain ⟨hsteq, hrest⟩ := hinv
  have hlk : st.lastTokenKind = ts0.getLast?.map Token.kind := by
    rcases hrest with ⟨h1, h2, h3⟩ | ⟨prev, h1, h2, h3, h4⟩
    · rw [h1, h2]
      rfl
    · rw [h1, h2]
      rfl
  constructor
  · refine ⟨hsrc.trans hsteq,
      Or.inr ⟨t, List.getLast?_concat ts0, hlast, hstop, ?_⟩⟩
    rw [List.dropLast_concat]
    rcases hdisj with ⟨hk, hzw, hflag0, hstep⟩ | ⟨hw1, hw2, hw3⟩
    · rw [hzw, newlineIn_empty src (le_refl t.span.start),
        if_neg (by decide : ¬(false = true))]
      exact hflag0
    · rw [hw3, hsteq, hlk]
      rfl
  · rcases hrest with ⟨h1, h2, h3⟩ | ⟨prev, h1, h2, h3, h4⟩
    · subst h1
      rcases hdisj with ⟨hk, hzw, hflag0, hstep⟩ | ⟨hw1, hw2, hw3⟩
      · exfalso
        rw [hsteq, h2, h3] at hstep
        unfold flagStep at hstep
        split at hstep
        · exact absurd hstep (by decide)
        · exact absurd hstep (by decide)
      · have hsynth : isSyntheticComma t = false := by
          unfold isSyntheticComma
          have hne : (t.span.stop == t.span.start) = false := by
            simp only [beq_eq_false_iff_ne, ne_eq]
            omega
          rw [hne, Bool.and_false]
        rw [hsynth]
        show (false = true ↔ autoCommaAt src ([] ++ [t]) 0 = true)
        exact Iff.rfl
    · cases hL : ts0.length with
      | zero =>
        rw [List.length_eq_zero] at hL
        subst hL
        simp at h1
      | succ j =>
        have hgj0 : ts0.get? j = some prev := by
          have h := List.getLast?_eq_get? ts0
          rw [hL, Nat.succ_sub_one] at h
          rw [← h]
          exact h1
        have hgj : (ts0 ++ [t]).get? j = some prev := by
          rw [List.get?_append (by omega)]
          exact hgj0
        have hgj1 : (ts0 ++ [t]).get? (j + 1) = some t := by
          rw [← hL]
          exact List.get?_concat_length ts0 t
        have hACA : autoCommaAt src (ts0 ++ [t]) (j + 1) =
            (if newlineIn src prev.span.stop t.span.start then
              isCloser (some prev.kind)
             else if newlineIn src prev.span.start prev.span.stop then
              (if j = 0 then false
               else isCloser (((ts0 ++ [t]).get? (j - 1)).map Token.kind))
             else false) := by
          rw [autoCommaAt_succ src (ts0 ++ [t]) j, hgj, hgj1]
        have hdl : ∀ jj, j = jj + 1 →
            ts0.dropLast.getLast?.map Token.kind =
              ((ts0 ++ [t]).get? jj).map Token.kind := by
          intro jj hj
          have h5 : ts0.dropLast.getLast? = ts0.get? jj := by
            rw [List.dropLast_eq_take, List.getLast?_eq_get?, List.length_take]
            rw [show min (ts0.length - 1) ts0.length - 1 = jj by omega]
            exact List.get?_take (by omega)
          rw [h5, List.get?_append (by omega)]
        rw [hACA]
        rcases hdisj with ⟨hk, hzw, hflag0, hstep⟩ | ⟨hw1, hw2, hw3⟩
        · have hsynth : isSyntheticComma t = true := by
            unfold isSyntheticComma
            rw [hk, hzw]
            simp
          rw [hsynth]
          rw [hsteq, h2, h3, h4] at hstep
          unfold flagStep at hstep
          constructor
          · intro _
            by_cases hgap : newlineIn src prev.span.stop t.span.start = true
            · rw [if_pos hgap] at hstep ⊢
              exact hstep
            · rw [if_neg hgap] at hstep ⊢
              by_cases hself :
                  newlineIn src prev.span.start prev.span.stop = true
              · rw [if_pos hself] at hstep ⊢
                cases j with
                | zero =>
                  exfalso
                  have hts : ts0.dropLast = [] := by
                    rw [List.dropLast_eq_take, hL]
                    simp
                  rw [hts] at hstep
                  exact absurd hstep (by decide)
                | succ jj =>
                  rw [hdl jj rfl] at hstep
                  rw [if_neg (by omega : ¬(jj + 1 = 0)),
                    show jj + 1 - 1 = jj from rfl]
                  exact hstep
              · rw [if_neg hself] at hstep
                exact absurd hstep (by decide)
          · intro _
            rfl
        · have hsynth : isSyntheticComma t = false := by
            unfold isSyntheticComma
            have hne : (t.span.stop == t.span.start) = false := by
              simp only [beq_eq_false_iff_ne, ne_eq]
              omega
            rw [hne, Bool.and_false]
          rw [hsynth]
          rw [hsteq, h2, h3, h4] at hw2
          unfold flagStep at hw2
          constructor
          · intro h
            exact absurd h (by decide)
          · intro hval
            exfalso
            by_cases hgap : newlineIn src prev.span.stop t.span.start = true
            · rw [if_pos hgap] at hw2 hval
              rw [hw2] at hval
              exact absurd hval (by decide)
            · rw [if_neg hgap] at hw2 hval
              by_cases hself :
                  newlineIn src prev.span.start prev.span.stop = true
              · rw [if_pos hself] at hw2 hval
                cases j with
                | zero =>
                  rw [if_pos rfl] at hval
                  exact absurd hval (by decide)
                | succ jj =>
                  rw [if_neg (by omega : ¬(jj + 1 = 0)),
                    show jj + 1 - 1 = jj from rfl] at hval
                  rw [hdl jj rfl] at hw2
                  rw [hw2] at hval
                  exact absurd hval (by decide)
              · rw [if_neg hself] at hval
                exact absurd hval (by decide)

/-- Helper: the tokenize loop preserves the invariant and delivers the
auto-comma specification for the whole emitted stream. -/
theorem tokenizeAux_ok (src : List Nat) :
    ∀ (fuel : Nat) (st : LexSt) (ts0 : List Token),
      LexInv src ts0 st →
      (∀ i t, ts0.get? i = some t →
        (isSyntheticComma t = true ↔ autoCommaAt src ts0 i = true)) →
      ∀ res, tokenizeAux fuel st ts0.reverse = some (.ok res) →
        StreamOK src res := by
  intro fuel
  induction fuel with
  | zero =>
    intro st ts0 _ _ res h
    exact absurd h (by simp [tokenizeAux])
  | succ fuel ih =>
    intro st ts0 hinv hpre res hrun
    unfold tokenizeAux at hrun
    cases hnt : nextToken st with
    | div =>
      rw [hnt] at hrun
      exact absurd hrun (by simp)
    | fail e st2 =>
      rw [hnt] at hrun
      exact absurd hrun (by simp)
    | eof st2 =>
      rw [hnt] at hrun
      simp [List.reverse_reverse] at hrun
      subst hrun
      exact hpre
    | tok t st2 =>
      rw [hnt] at hrun
      have hstep := lexStep src ts0 st st2 t hinv hnt
      refine ih st2 (ts0 ++ [t]) hstep.1 ?_ res ?_
      · intro i u hu
        by_cases hi : i < ts0.length
        · rw [autoCommaAt_append src ts0 [t] i hi]
          rw [List.get?_append hi] at hu
          exact hpre i u hu
        · have hlen : i < ts0.length + 1 := by
            by_contra hcon
            have hnone : (ts0 ++ [t]).get? i = none :=
              List.get?_eq_none.mpr (by simp; omega)
            rw [hnone] at hu
            exact absurd hu (by simp)
          have hieq : i = ts0.length := by omega
          subst hieq
          rw [List.get?_concat_length] at hu
          have hu' : u = t := (Option.some.inj hu).symm
          subst hu'
          exact hstep.2
      · rw [show (ts0 ++ [t]).reverse = t :: ts0.reverse by simp]
        exact hrun

/-- Claim C2 (amended): in every successfully tokenized stream, a token is
a synthetic (zero-width) comma exactly as `autoCommaAt` prescribes: with
`prev` the previously emitted token, either at least one newline occurs in
the source strictly between `prev`'s end and the token's position and
`prev` is a statement-closer, or no newline occurs there but a newline
occurs *inside `prev`'s own span* (possible for string and symbol
literals) and the token before `prev` is a statement-closer — the flag is
keyed on the token before the newline, not on the token just before the
comma position. -/
theorem c2_auto_comma (src : List Nat) (ts : List Token)
    (h : tokenize src = some (.ok ts)) :
    ∀ i t, ts.get? i = some t →
      (isSyntheticComma t = true ↔ autoCommaAt src ts i = true) := by
  have h0 : LexInv src [] ⟨src, ⟨0, 0⟩, none, false⟩ :=
    ⟨rfl, Or.inl ⟨rfl, rfl, rfl⟩⟩
  exact tokenizeAux_ok src (2 * src.length + 4) ⟨src, ⟨0, 0⟩, none, false⟩ []
    h0 (by intro i t ht; simp at ht) ts h

/-- Witness for C2: on the source `x"\n"y` the token at position 2 of the
stream is the synthetic comma, and the specification agrees. -/
theorem c2_auto_comma_witness :
    (isSyntheticComma ⟨.comma, ⟨4, 4⟩⟩ = true ↔
      autoCommaAt (strBytes "x\"\n\"y")
        [⟨.ident, ⟨0, 1⟩⟩, ⟨.str, ⟨1, 4⟩⟩, ⟨.comma, ⟨4, 4⟩⟩,
          ⟨.ident, ⟨4, 5⟩⟩] 2 = true) :=
  c2_auto_comma (strBytes "x\"\n\"y")
    [⟨.ident, ⟨0, 1⟩⟩, ⟨.str, ⟨1, 4⟩⟩, ⟨.comma, ⟨4, 4⟩⟩, ⟨.ident, ⟨4, 5⟩⟩]
    (by rfl) 2 ⟨.comma, ⟨4, 4⟩⟩ (by rfl)

/-- Counterexample for C2 as stated: tokenizing `x"\n"y` emits a synthetic
comma at position 2 right after the string literal although no newline
occurs between that string token (ending at 4) and the next non-whitespace
character (at 4) — the newline sits *inside* the string literal's span, and
the flag was keyed on the token before the string (the identifier `x`), so
the claimed "newline after the previous token" condition is violated. -/
theorem c2_auto_comma_counterexample :
    tokenize (strBytes "x\"\n\"y") =
      some (.ok [⟨.ident, ⟨0, 1⟩⟩, ⟨.str, ⟨1, 4⟩⟩, ⟨.comma, ⟨4, 4⟩⟩,
        ⟨.ident, ⟨4, 5⟩⟩]) ∧
    isSyntheticComma ⟨.comma, ⟨4, 4⟩⟩ = true ∧
    isCloser (some TokenKind.str) = true ∧
    newlineIn (strBytes "x\"\n\"y") 4 4 = false ∧
    newlineIn (strBytes "x\"\n\"y") 1 4 = true :=
  ⟨by rfl, by rfl, by rfl, by rfl, by rfl⟩

end Vamp
